import Mathlib

/-!
Verification development for the io-xl-web reconciliation engine.

This file gives a shallow embedding of the core reconciliation code
(`src/utils/keyManager.ts`, `src/utils/comparisonEngine.ts`, and the
row-set transformations of `src/store/gridStore.ts`) and proves the
spec's testable properties over that embedding.

Modelling conventions:
- JavaScript strings are Lean `String`s; most functions are written over
  `List Char` with `String` wrappers at the boundary.
- Cell values of a row (`Record<string, unknown>`) are modelled as
  optional strings: `none` is an absent key / `undefined`, `some s` a
  string-valued cell.  Numeric and boolean cells enter the engine only
  through `String(...)` / `normalizeKey`, so their string renderings are
  used.
- `Number(...)` is modelled as an exact parse into a rational number,
  kept as an unreduced integer fraction (plus signed infinities); IEEE
  rounding is not modelled.
- JavaScript `RegExp` evaluation (used only by exclusion patterns) is an
  external engine and is passed in as an oracle
  `regexTest : String → String → Option Bool` (`none` models a
  constructor throw on an invalid pattern).
-/

namespace IoXl

/-! ### JS string primitives -/

/-- JS whitespace (the subset relevant here: ASCII whitespace plus NBSP and BOM). -/
def isJsWs (c : Char) : Bool :=
  c = ' ' || c = '\t' || c = '\n' || c = '\r' || c = '\x0b' || c = '\x0c' ||
  c = ' ' || c = '﻿'

/-- Drop leading JS whitespace. -/
def dropWsL (l : List Char) : List Char := l.dropWhile isJsWs

/-- `String.prototype.trim` on character lists. -/
def jsTrimL (l : List Char) : List Char :=
  ((dropWsL ((dropWsL l.reverse)).reverse).reverse).reverse

/-- `String.prototype.trim`. -/
def jsTrim (s : String) : String := String.mk (jsTrimL s.data)

/-- ASCII lower-casing of one character (model of JS `toLowerCase`). -/
def jsLowerChar (c : Char) : Char :=
  if 'A' ≤ c && c ≤ 'Z' then Char.ofNat (c.toNat + 32) else c

/-- ASCII upper-casing of one character (model of JS `toUpperCase`). -/
def jsUpperChar (c : Char) : Char :=
  if 'a' ≤ c && c ≤ 'z' then Char.ofNat (c.toNat - 32) else c

/-- Model of JS `toLowerCase` (ASCII fragment). -/
def jsToLower (s : String) : String := String.mk (s.data.map jsLowerChar)

/-- Model of JS `toUpperCase` (ASCII fragment). -/
def jsToUpper (s : String) : String := String.mk (s.data.map jsUpperChar)

/-- `sub.isPrefixOf hay || includes (tail hay) sub`: JS `String.prototype.includes`
on character lists. -/
def includesL (sub : List Char) : List Char → Bool
  | [] => sub.isEmpty
  | c :: t => sub.isPrefixOf (c :: t) || includesL sub t

/-- JS `hay.includes(sub)`. -/
def strIncludes (hay sub : String) : Bool := includesL sub.data hay.data

/-- JS `hay.startsWith(sub)`. -/
def strStartsWith (hay sub : String) : Bool := sub.data.isPrefixOf hay.data

/-- JS `s.endsWith(suffix)`. -/
def strEndsWith (hay sub : String) : Bool := sub.data.reverse.isPrefixOf hay.data.reverse

/-- Character list of the part of `l` before the first occurrence of `"::"`
(JS `s.split('::')[0]`). -/
def keyPartL : List Char → List Char
  | [] => []
  | ':' :: ':' :: _ => []
  | c :: t => c :: keyPartL t

/-- JS `s.split('::')[0]`: the merge-separator prefix of a key. -/
def keyPart (s : String) : String := String.mk (keyPartL s.data)

/-- Whether a character list contains the merge separator `"::"`. -/
def hasSepL : List Char → Bool
  | [] => false
  | ':' :: ':' :: _ => true
  | _ :: t => hasSepL t

/-- Whether a string contains the merge separator `"::"`. -/
def hasSep (s : String) : Bool := hasSepL s.data

/-! ### KeyNormalizer (`keyManager.ts` / `normalizeKey`) -/

/-- Replace `\r`, `\n`, `\t` by a space (`str.replace(/[\r\n\t]/g, ' ')`). -/
def replCtrlChar (c : Char) : Char :=
  if c = '\r' || c = '\n' || c = '\t' then ' ' else c

/-- Collapse runs of whitespace to a single space (`str.replace(/\s+/g, ' ')`).
The boolean records whether the previous character was whitespace. -/
def collapseWsL : List Char → Bool → List Char
  | [], _ => []
  | c :: t, prevWs =>
    if isJsWs c then
      if prevWs then collapseWsL t true else ' ' :: collapseWsL t true
    else c :: collapseWsL t false

/-- `normalizeKey` on a definitely-present string value:
trim, replace control chars by spaces, collapse whitespace runs, trim. -/
def normalizeKeyStr (s : String) : String :=
  jsTrim (String.mk (collapseWsL ((jsTrimL s.data).map replCtrlChar) false))

/-- `normalizeKey(value: unknown)`: `null`/`undefined` become the empty string. -/
def normalizeKey (v : Option String) : String :=
  match v with
  | none => ""
  | some s => normalizeKeyStr s

/-! ### JS `Number(...)` model -/

/-- A JS number that can result from `Number(string)` other than `NaN`:
an exact rational (kept as an unreduced fraction `num / den`, `den > 0`)
or a signed infinity. -/
inductive JSNum where
  | fin (num : ℤ) (den : ℕ) : JSNum
  | inf (neg : Bool) : JSNum
deriving DecidableEq, Repr

/-- Strict equality `===` on non-NaN JS numbers (exact, no tolerance);
fractions are compared by cross-multiplication. -/
def JSNum.eq (a b : JSNum) : Bool :=
  match a, b with
  | .fin n d, .fin n' d' => n * (d' : ℤ) == n' * (d : ℤ)
  | .inf s, .inf t => s == t
  | _, _ => false

def isDigitChar (c : Char) : Bool := '0' ≤ c && c ≤ '9'

def digitVal (c : Char) : ℕ := c.toNat - '0'.toNat

/-- Value of a string of decimal digits. -/
def digitsVal (l : List Char) : ℕ := l.foldl (fun a c => a * 10 + digitVal c) 0

/-- Hexadecimal digit test. -/
def isHexChar (c : Char) : Bool :=
  isDigitChar c || ('a' ≤ c && c ≤ 'f') || ('A' ≤ c && c ≤ 'F')

def hexVal (c : Char) : ℕ :=
  if isDigitChar c then digitVal c
  else if 'a' ≤ c && c ≤ 'f' then c.toNat - 'a'.toNat + 10
  else c.toNat - 'A'.toNat + 10

def hexDigitsVal (l : List Char) : ℕ := l.foldl (fun a c => a * 16 + hexVal c) 0

/-- Parse the exponent part after `e`/`E`: optional sign then at least one digit. -/
def parseExp (l : List Char) : Option ℤ :=
  match l with
  | '+' :: t => if t ≠ [] && t.all isDigitChar then some (digitsVal t : ℤ) else none
  | '-' :: t => if t ≠ [] && t.all isDigitChar then some (-(digitsVal t : ℤ)) else none
  | t => if t ≠ [] && t.all isDigitChar then some (digitsVal t : ℤ) else none

/-- Scale an unreduced fraction by a power of ten. -/
def scaleTen (q : ℤ × ℕ) (e : ℤ) : ℤ × ℕ :=
  if 0 ≤ e then (q.1 * (10 : ℤ) ^ e.toNat, q.2) else (q.1, q.2 * 10 ^ (-e).toNat)

/-- Parse an unsigned JS decimal literal: `digits [. digits] [exp]` or
`. digits [exp]`; at least one digit overall.  The value is returned as an
unreduced fraction. -/
def parseDecBody (l : List Char) : Option (ℤ × ℕ) :=
  let intPart := l.takeWhile isDigitChar
  let rest := l.drop intPart.length
  match rest with
  | [] => if intPart = [] then none else some ((digitsVal intPart : ℤ), 1)
  | '.' :: r2 =>
    let fracPart := r2.takeWhile isDigitChar
    let r3 := r2.drop fracPart.length
    if intPart = [] && fracPart = [] then none
    else
      let base : ℤ × ℕ :=
        ((digitsVal intPart * 10 ^ fracPart.length + digitsVal fracPart : ℕ) , 10 ^ fracPart.length)
      match r3 with
      | [] => some base
      | 'e' :: r4 => (parseExp r4).map (scaleTen base)
      | 'E' :: r4 => (parseExp r4).map (scaleTen base)
      | _ => none
  | 'e' :: r4 =>
    if intPart = [] then none
    else (parseExp r4).map (scaleTen ((digitsVal intPart : ℤ), 1))
  | 'E' :: r4 =>
    if intPart = [] then none
    else (parseExp r4).map (scaleTen ((digitsVal intPart : ℤ), 1))
  | _ => none

/-- Parse a signed decimal literal or `Infinity`. -/
def parseSignedBody (l : List Char) : Option JSNum :=
  if l = "Infinity".data then some (.inf false)
  else ((parseDecBody l).map (fun q => .fin q.1 q.2))

/-- Model of JS `Number(string)`: trim, empty → 0, radix prefixes, signed
decimal / `Infinity`; `none` models `NaN`. -/
def jsNumber (s : String) : Option JSNum :=
  let l := jsTrimL s.data
  match l with
  | [] => some (.fin 0 1)
  | '0' :: 'x' :: t => if t ≠ [] && t.all isHexChar then some (.fin (hexDigitsVal t : ℤ) 1) else none
  | '0' :: 'X' :: t => if t ≠ [] && t.all isHexChar then some (.fin (hexDigitsVal t : ℤ) 1) else none
  | '0' :: 'o' :: t =>
    if t ≠ [] && t.all (fun c => '0' ≤ c && c ≤ '7') then
      some (.fin (t.foldl (fun a c => a * 8 + digitVal c) 0 : ℕ) 1) else none
  | '0' :: 'O' :: t =>
    if t ≠ [] && t.all (fun c => '0' ≤ c && c ≤ '7') then
      some (.fin (t.foldl (fun a c => a * 8 + digitVal c) 0 : ℕ) 1) else none
  | '0' :: 'b' :: t =>
    if t ≠ [] && t.all (fun c => c = '0' || c = '1') then
      some (.fin (t.foldl (fun a c => a * 2 + digitVal c) 0 : ℕ) 1) else none
  | '0' :: 'B' :: t =>
    if t ≠ [] && t.all (fun c => c = '0' || c = '1') then
      some (.fin (t.foldl (fun a c => a * 2 + digitVal c) 0 : ℕ) 1) else none
  | '+' :: t => parseSignedBody t
  | '-' :: t =>
    (match parseSignedBody t with
     | some (.fin n d) => some (.fin (-n) d)
     | some (.inf _) => some (.inf true)
     | none => none)
  | t => parseSignedBody t

/-- `s.replace(/,/g, '')`: strip every comma. -/
def stripCommas (s : String) : String := String.mk (s.data.filter (fun c => c ≠ ','))

/-! ### ValueMatcher (`comparisonEngine.ts` / `isValuesMatch`) -/

/-- `isValuesMatch(v1, v2)`: normalize both, case-insensitive compare; if
unequal and both non-empty, strip commas and compare as numbers (exact). -/
def isValuesMatch (v1 v2 : Option String) : Bool :=
  let s1 := normalizeKey v1
  let s2 := normalizeKey v2
  if jsToLower s1 == jsToLower s2 then true
  else if s1 ≠ "" && s2 ≠ "" then
    match jsNumber (stripCommas s1), jsNumber (stripCommas s2) with
    | some n1, some n2 => JSNum.eq n1 n2
    | _, _ => false
  else false

/-! ### IntegratedKeyResolver (`keyManager.ts` / `getIntegratedKey`) -/

/-- `ExistsStatus` of a unified row. -/
inductive ExistsStatus where
  | both : ExistsStatus
  | onlyRef : ExistsStatus
  | onlyComp : ExistsStatus
  | bothMerged : ExistsStatus
deriving DecidableEq, Repr

/-- `getIntegratedKey(refKey, compKey, _status)`: normalized reference key if
non-empty, else normalized comparison key, else the sentinel `'UNKNOWN'`. -/
def getIntegratedKey (refKey compKey : String) (_status : ExistsStatus) : String :=
  let normalizedRef := normalizeKeyStr refKey
  let normalizedComp := normalizeKeyStr compKey
  if normalizedRef ≠ "" then normalizedRef
  else if normalizedComp ≠ "" then normalizedComp
  else "UNKNOWN"

/-! ### Rows and fuzzy column lookup (`comparisonEngine.ts`) -/

/-- A raw row: ordered association list from column name to cell value
(model of `Record<string, unknown>`). -/
def RawRow := List (String × String)
deriving DecidableEq, Repr

/-- Plain property access `row[k]`. -/
def rowGet (r : RawRow) (k : String) : Option String :=
  (List.find? (fun kv => kv.1 == k) r).map (fun kv => kv.2)

/-- Hangul syllable range `가-힣`. -/
def isHangul (c : Char) : Bool := 0xAC00 ≤ c.toNat && c.toNat ≤ 0xD7A3

/-- The aggressive header normalization of `getFuzzyValue`:
`s.toLowerCase().replace(/[^a-z0-9가-힣]/g, '')`. -/
def fuzzyNorm (s : String) : String :=
  String.mk ((s.data.map jsLowerChar).filter
    (fun c => ('a' ≤ c && c ≤ 'z') || ('0' ≤ c && c ≤ '9') || isHangul c))

/-- `getFuzzyValue(row, colName)`: exact key first, then the first key with
an equal aggressive normalization (the found key must be truthy). -/
def getFuzzyValue (row : Option RawRow) (colName : String) : Option String :=
  match row with
  | none => none
  | some r =>
    match rowGet r colName with
    | some v => some v
    | none =>
      match List.find? (fun kv => fuzzyNorm kv.1 == fuzzyNorm colName) r with
      | some kv => if kv.1 == "" then none else rowGet r kv.1
      | none => none

/-- `getValueWithFallback(row, col)`: normalized fuzzy value, falling back to
the `'검토'`-suffixed review column when the main value is blank and the
column ends in `'_기준'` or `'_비교'`. -/
def getValueWithFallback (row : Option RawRow) (col : String) : String :=
  let main := normalizeKey (getFuzzyValue row col)
  if main ≠ "" then main
  else if strEndsWith col "_기준" then normalizeKey (getFuzzyValue row (col ++ "검토"))
  else if strEndsWith col "_비교" then normalizeKey (getFuzzyValue row (col ++ "검토"))
  else ""

/-! ### Configuration records -/

structure MappingInfo where
  refColumn : String
  compColumn : String
  isTarget : Bool
  isPK : Bool
  isSK : Bool
deriving DecidableEq, Repr

structure ColumnExclusionConfig where
  excludeUnnamed : Bool
  patterns : List String
deriving DecidableEq, Repr

structure PKExclusionConfig where
  excludeStartAlpha : Bool
  excludeEmpty : Bool
  customPatterns : List String
deriving DecidableEq, Repr

structure ComparisonConfig where
  pkColumn : String
  skColumn : Option String
  mappings : List MappingInfo
  exclusionRules : Option (List String)
  pkExclusion : Option PKExclusionConfig
  columnExclusion : Option ColumnExclusionConfig
deriving DecidableEq, Repr

/-- The JS `RegExp` oracle: `regexTest pattern value` is `some b` when
`new RegExp(pattern, 'i').test(value) = b`, and `none` when the `RegExp`
constructor throws on the pattern. -/
def RegexOracle := String → String → Option Bool

/-- `trimmed.slice(1, -1)`: drop the surrounding slashes of a `/…/` pattern. -/
def sliceInner (s : String) : String := String.mk ((s.data.drop 1).dropLast)

/-- Whether a trimmed pattern looks like a regex (starts and ends with `/`). -/
def regexLike (s : String) : Bool := strStartsWith s "/" && strEndsWith s "/"

/-! ### ExclusionFilter (`applyExclusionRules`) -/

/-- One custom identity pattern check: regex when `/…/` (falling back to a
case-insensitive substring check on an invalid regex), else substring. -/
def pkPatternMatches (rt : RegexOracle) (pattern pkValue upperPK : String) : Bool :=
  let trimmed := jsTrim pattern
  if trimmed == "" then false
  else if regexLike trimmed then
    match rt (sliceInner trimmed) pkValue with
    | some b => b
    | none => strIncludes upperPK (jsToUpper trimmed)
  else strIncludes upperPK (jsToUpper trimmed)

/-- `/^[a-zA-Z]/.test(s)`. -/
def startsAlpha (s : String) : Bool :=
  match s.data with
  | [] => false
  | c :: _ => ('a' ≤ c && c ≤ 'z') || ('A' ≤ c && c ≤ 'Z')

/-- `applyExclusionRules(data, pkColumn, useB1Filter, pkExclusion, oldExclusionRules)`. -/
def applyExclusionRules (rt : RegexOracle) (data : List RawRow) (pkColumn : String)
    (useB1Filter : Bool) (pkExclusion : Option PKExclusionConfig)
    (oldExclusionRules : Option (List String)) : List RawRow :=
  data.filter (fun row =>
    let rawValue := rowGet row pkColumn
    let pkValue := normalizeKey rawValue
    let excludeEmpty := match pkExclusion with | some pe => pe.excludeEmpty | none => false
    let rawFalsyOrBlank := match rawValue with
      | none => true
      | some s => s == "" || jsTrim s == ""
    if excludeEmpty && rawFalsyOrBlank then false
    else if pkValue == "" then false
    else if useB1Filter && !(strStartsWith pkValue "0-") then false
    else if (match pkExclusion with | some pe => pe.excludeStartAlpha | none => false)
        && startsAlpha pkValue then false
    else
      let patterns := match pkExclusion with
        | some pe => pe.customPatterns
        | none => match oldExclusionRules with | some r => r | none => []
      if patterns.length > 0 then
        let upperPK := jsToUpper pkValue
        !(patterns.any (fun pattern => pkPatternMatches rt pattern pkValue upperPK))
      else true)

/-! ### MappingResolver (`filterMappings`) -/

/-- `/^column\s*\d+$/i.test(lower)`. -/
def isColumnN (s : String) : Bool :=
  let l := (jsToLower s).data
  if ("column".data).isPrefixOf l then
    let r := (l.drop 6).dropWhile isJsWs
    r ≠ [] && r.all isDigitChar
  else false

/-- One column-exclusion pattern check (regex / substring, case-insensitive). -/
def colPatternMatches (rt : RegexOracle) (pattern colName : String) : Bool :=
  let trimmed := jsTrim pattern
  if trimmed == "" then false
  else if regexLike trimmed then
    match rt (sliceInner trimmed) colName with
    | some b => b
    | none => strIncludes (jsToLower colName) (jsToLower trimmed)
  else strIncludes (jsToLower colName) (jsToLower trimmed)

/-- `filterMappings(mappings, config)`: PK/SK entries are always kept; other
entries are dropped by the placeholder test and the exclusion patterns. -/
def filterMappings (rt : RegexOracle) (mappings : List MappingInfo)
    (config : Option ColumnExclusionConfig) : List MappingInfo :=
  match config with
  | none => mappings
  | some cfg =>
    mappings.filter (fun m =>
      if m.isPK || m.isSK then true
      else
        let colName := m.refColumn
        let lower := jsToLower colName
        if cfg.excludeUnnamed && (strStartsWith lower "unnamed" || isColumnN colName) then false
        else if cfg.patterns.length > 0 then
          !(cfg.patterns.any (fun p => colPatternMatches rt p colName))
        else true)

/-! ### DatasetMatcher (`compareDatasets`), trace level

The source pushes `createResultRow(refRow, compRow, status)` as it matches;
the model records the provenance (`refIdx`, `compIdx`, status, SK-flag) of
each pushed row and applies `createResultRow` to the rows at those indices,
which is the same row sequence. -/

structure TraceRow where
  refIdx : Option ℕ
  compIdx : Option ℕ
  status : ExistsStatus
  skMatch : Bool
deriving DecidableEq, Repr

structure MatchState where
  refMatched : List ℕ
  compMatched : List ℕ
  trace : List TraceRow
deriving DecidableEq, Repr

/-- `pkMapping?.compColumn || pkColumn`. -/
def compPKColumnOf (mappings : List MappingInfo) (pkColumn : String) : String :=
  match List.find? (fun m => m.isPK) mappings with
  | some m => if m.compColumn == "" then pkColumn else m.compColumn
  | none => pkColumn

/-- `skMapping?.compColumn`. -/
def compSKColumnOf (mappings : List MappingInfo) : Option String :=
  (List.find? (fun m => m.isSK) mappings).map (fun m => m.compColumn)

/-- `filteredComp.findIndex(...)` of principle 1: first comparison index that
is not yet matched and whose effective identity has the same `'::'`-prefix. -/
def findCompIdx (comps : List RawRow) (compMatched : List ℕ)
    (compPKColumn refPK : String) : Option ℕ :=
  (List.find? (fun p => !(compMatched.contains p.1) &&
      keyPart (getValueWithFallback (some p.2) compPKColumn) == refPK) comps.enum).map
    (fun p => p.1)

/-- Principle 1 (PK match) over the enumerated reference rows. -/
def phase1Go (comps : List RawRow) (pkColumn compPKColumn : String) :
    List (ℕ × RawRow) → MatchState → MatchState
  | [], st => st
  | (refIdx, refRow) :: rest, st =>
    let refPKRaw := getValueWithFallback (some refRow) pkColumn
    if refPKRaw == "" then phase1Go comps pkColumn compPKColumn rest st
    else
      let refPK := keyPart refPKRaw
      match findCompIdx comps st.compMatched compPKColumn refPK with
      | some compIdx =>
        phase1Go comps pkColumn compPKColumn rest
          ⟨st.refMatched ++ [refIdx], st.compMatched ++ [compIdx],
            st.trace ++ [⟨some refIdx, some compIdx, .both, false⟩]⟩
      | none => phase1Go comps pkColumn compPKColumn rest st

/-- `findIndex` of principle 2: first unmatched comparison index with equal
effective secondary key (no prefix splitting). -/
def findCompIdxSK (comps : List RawRow) (compMatched : List ℕ)
    (compSKColumn refSK : String) : Option ℕ :=
  (List.find? (fun p => !(compMatched.contains p.1) &&
      getValueWithFallback (some p.2) compSKColumn == refSK) comps.enum).map
    (fun p => p.1)

/-- Principle 2 (SK fallback) over the enumerated reference rows. -/
def phase2Go (comps : List RawRow) (skColumn compSKColumn : String) :
    List (ℕ × RawRow) → MatchState → MatchState
  | [], st => st
  | (refIdx, refRow) :: rest, st =>
    if st.refMatched.contains refIdx then phase2Go comps skColumn compSKColumn rest st
    else
      let refSK := getValueWithFallback (some refRow) skColumn
      if refSK == "" then phase2Go comps skColumn compSKColumn rest st
      else
        match findCompIdxSK comps st.compMatched compSKColumn refSK with
        | some compIdx =>
          phase2Go comps skColumn compSKColumn rest
            ⟨st.refMatched ++ [refIdx], st.compMatched ++ [compIdx],
              st.trace ++ [⟨some refIdx, some compIdx, .both, true⟩]⟩
        | none => phase2Go comps skColumn compSKColumn rest st

/-- Principle 3: every still-unmatched reference row becomes `Only Ref`. -/
def phase3Go : List (ℕ × RawRow) → MatchState → MatchState
  | [], st => st
  | (refIdx, _) :: rest, st =>
    if st.refMatched.contains refIdx then phase3Go rest st
    else phase3Go rest ⟨st.refMatched, st.compMatched,
      st.trace ++ [⟨some refIdx, none, .onlyRef, false⟩]⟩

/-- Principle 4: every still-unmatched comparison row becomes `Only Comp`. -/
def phase4Go : List (ℕ × RawRow) → MatchState → MatchState
  | [], st => st
  | (compIdx, _) :: rest, st =>
    if st.compMatched.contains compIdx then phase4Go rest st
    else phase4Go rest ⟨st.refMatched, st.compMatched,
      st.trace ++ [⟨none, some compIdx, .onlyComp, false⟩]⟩

/-- The four principles of `compareDatasets`, producing the filtered inputs
and the provenance trace of the result list. -/
def compareTrace (rt : RegexOracle) (refData compData : List RawRow)
    (config : ComparisonConfig) (useB1Filter : Bool) :
    List RawRow × List RawRow × List TraceRow :=
  let pkColumn := config.pkColumn
  let compPKColumn := compPKColumnOf config.mappings pkColumn
  let filteredRef := applyExclusionRules rt refData pkColumn useB1Filter
    config.pkExclusion config.exclusionRules
  let filteredComp := applyExclusionRules rt compData compPKColumn useB1Filter
    config.pkExclusion config.exclusionRules
  let st1 := phase1Go filteredComp pkColumn compPKColumn filteredRef.enum ⟨[], [], []⟩
  let st2 :=
    match config.skColumn, compSKColumnOf config.mappings with
    | some sk, some compSK =>
      if sk ≠ "" && compSK ≠ "" then phase2Go filteredComp sk compSK filteredRef.enum st1
      else st1
    | _, _ => st1
  let st3 := phase3Go filteredRef.enum st2
  let st4 := phase4Go filteredComp.enum st3
  (filteredRef, filteredComp, st4.trace)

/-! ### `createResultRow` -/

structure ComparisonResult where
  integratedKey : String
  status : ExistsStatus
  standardPK : String
  standardSK : String
  cells : List (String × String)
  diffCols : List String
  skMatch : Bool
deriving DecidableEq, Repr

/-- `createResultRow(refRow, compRow, status, config)` with the effective
mappings; `_diff` flags are recorded in `diffCols`, plain cell values in
`cells`. -/
def createResultRow (refRow compRow : Option RawRow) (status : ExistsStatus)
    (pkColumn : String) (mappings : List MappingInfo) : ComparisonResult :=
  let compPKColumn := compPKColumnOf mappings pkColumn
  let refPK := match refRow with | some r => normalizeKey (rowGet r pkColumn) | none => ""
  let refReviewPK := match refRow with
    | some r =>
      (match getFuzzyValue (some r) (pkColumn ++ "검토") with
       | some v => if v == "" then "" else normalizeKeyStr v
       | none => "")
    | none => ""
  let effectiveRefPK := if refPK == "" && refReviewPK ≠ "" then refReviewPK else refPK
  let compPK := match compRow with | some r => normalizeKey (rowGet r compPKColumn) | none => ""
  let compReviewPK := match compRow with
    | some r =>
      (match getFuzzyValue (some r) (compPKColumn ++ "검토") with
       | some v => if v == "" then "" else normalizeKeyStr v
       | none => "")
    | none => ""
  let effectiveCompPK := if compPK == "" && compReviewPK ≠ "" then compReviewPK else compPK
  let integratedKey := getIntegratedKey effectiveRefPK effectiveCompPK status
  let pkCells := [(pkColumn ++ "_기준", refPK), (pkColumn ++ "_기준검토", refReviewPK),
    (pkColumn ++ "_비교", compPK), (pkColumn ++ "_비교검토", compReviewPK)]
  let pkDiff := if status == ExistsStatus.both && !(isValuesMatch (some effectiveRefPK) (some effectiveCompPK))
    then [pkColumn ++ "_diff"] else []
  let skPart :=
    match List.find? (fun m => m.isSK) mappings with
    | some skM =>
      let refSK := match refRow with | some r => normalizeKey (rowGet r skM.refColumn) | none => ""
      let refReviewSK := match refRow with
        | some r => normalizeKey (getFuzzyValue (some r) (skM.refColumn ++ "검토"))
        | none => ""
      let compSK := match compRow with | some r => normalizeKey (rowGet r skM.compColumn) | none => ""
      let compReviewSK := match compRow with
        | some r => normalizeKey (getFuzzyValue (some r) (skM.compColumn ++ "검토"))
        | none => ""
      let effectiveRefSK := if refSK ≠ "" then refSK else refReviewSK
      let effectiveCompSK := if compSK ≠ "" then compSK else compReviewSK
      let skCells := [(skM.refColumn ++ "_기준", refSK), (skM.refColumn ++ "_기준검토", refReviewSK),
        (skM.refColumn ++ "_비교", compSK), (skM.refColumn ++ "_비교검토", compReviewSK)]
      let skDiff := if status == ExistsStatus.both &&
          !(isValuesMatch (some effectiveRefSK) (some effectiveCompSK))
        then [skM.refColumn ++ "_diff"] else []
      (skCells, effectiveRefSK, skDiff)
    | none => ([], "", [])
  let mapped := (mappings.filter (fun m => !m.isPK && !m.isSK)).map (fun m =>
    let refVal := normalizeKey (getFuzzyValue refRow m.refColumn)
    let refReviewVal := match refRow with
      | some _ => normalizeKey (getFuzzyValue refRow (m.refColumn ++ "검토"))
      | none => ""
    let compVal := normalizeKey (getFuzzyValue compRow m.compColumn)
    let compReviewVal := match compRow with
      | some _ => normalizeKey (getFuzzyValue compRow (m.compColumn ++ "검토"))
      | none => ""
    let effectiveRefVal := if refVal ≠ "" then refVal else refReviewVal
    let effectiveCompVal := if compVal ≠ "" then compVal else compReviewVal
    let colCells := [(m.refColumn ++ "_기준", refVal), (m.refColumn ++ "_기준검토", refReviewVal),
      (m.refColumn ++ "_비교", compVal), (m.refColumn ++ "_비교검토", compReviewVal)]
    let colDiff := if status == ExistsStatus.both &&
        !(isValuesMatch (some effectiveRefVal) (some effectiveCompVal))
      then [m.refColumn ++ "_diff"] else []
    (colCells, colDiff))
  { integratedKey := integratedKey
    status := status
    standardPK := if effectiveRefPK ≠ "" then effectiveRefPK else effectiveCompPK
    standardSK := skPart.2.1
    cells := pkCells ++ skPart.1 ++ (mapped.map Prod.fst).flatten
    diffCols := pkDiff ++ skPart.2.2 ++ (mapped.map Prod.snd).flatten
    skMatch := false }

/-- `compareDatasets(refData, compData, config, useB1Filter)`: the trace rows
instantiated with `createResultRow` over the effective mappings. -/
def compareDatasets (rt : RegexOracle) (refData compData : List RawRow)
    (config : ComparisonConfig) (useB1Filter : Bool) : List ComparisonResult :=
  let baseMappings := config.mappings.filter (fun m => m.isTarget || m.isPK || m.isSK)
  let effectiveMappings := filterMappings rt baseMappings config.columnExclusion
  match compareTrace rt refData compData config useB1Filter with
  | (filteredRef, filteredComp, trace) =>
    trace.map (fun t =>
      { createResultRow (t.refIdx.bind (fun i => filteredRef[i]?))
          (t.compIdx.bind (fun i => filteredComp[i]?)) t.status config.pkColumn effectiveMappings
        with skMatch := t.skMatch })

/-! ### Grid rows (`gridStore.ts`)

A grid row is a `ComparisonResult`-shaped record: the four control fields
plus the generically keyed cells.  `applyReviewCompensation` only touches
rows, so the memo migration and the summary recomputation it triggers
(which do not read or write `rows`) are not part of the row model. -/

instance : Inhabited ExistsStatus := ⟨ExistsStatus.both⟩

structure GridRow where
  integratedKey : String
  status : ExistsStatus
  standardPK : String
  standardSK : String
  cells : List (String × String)
deriving DecidableEq, Repr, Inhabited

/-- Raw cell read `row[k]` (for generic cell keys). -/
def cellGet (r : GridRow) (k : String) : Option String :=
  (List.find? (fun kv => kv.1 == k) r.cells).map (fun kv => kv.2)

/-- `String(row[k] || '')` for generic cell keys. -/
def cellStr (r : GridRow) (k : String) : String :=
  match cellGet r k with
  | some v => v
  | none => ""

/-- JS property write `cells[k] = v`: replace in place, else append. -/
def cellSet (cells : List (String × String)) (k v : String) : List (String × String) :=
  match cells with
  | [] => [(k, v)]
  | kv :: rest => if kv.1 == k then (k, v) :: rest else kv :: cellSet rest k v

def rowSetCell (r : GridRow) (k v : String) : GridRow :=
  { r with cells := cellSet r.cells k v }

/-- `r.exists === 'Both' || r.exists === 'Both(M)'`. -/
def isBothish (r : GridRow) : Bool :=
  r.status == ExistsStatus.both || r.status == ExistsStatus.bothMerged

/-! ### ReviewCompensationMerger (`applyReviewCompensation`) -/

/-- The PK review column ids
(`pkMapping ? pkMapping.refColumn+suffix : pkColumn+suffix`). -/
def reviewColsOf (mappings : List MappingInfo) (pkColumn : String) : String × String :=
  match List.find? (fun m => m.isPK) mappings with
  | some m => (m.refColumn ++ "_기준검토", m.refColumn ++ "_비교검토")
  | none => (pkColumn ++ "_기준검토", pkColumn ++ "_비교검토")

/-- The target key of a row: reviewer-entered identity (reference side first)
if non-empty, else the current integrated key; merge-separator prefix only. -/
def targetKeyOf (refRevCol compRevCol : String) (r : GridRow) : String :=
  let refVal := jsTrim (cellStr r refRevCol)
  let compVal := jsTrim (cellStr r compRevCol)
  keyPart (if refVal ≠ "" then refVal else if compVal ≠ "" then compVal else r.integratedKey)

/-- Whether `getReviewChanges` reports this row (a review value is present). -/
def hasReviewVal (refRevCol compRevCol : String) (r : GridRow) : Bool :=
  jsTrim (cellStr r refRevCol) ≠ "" || jsTrim (cellStr r compRevCol) ≠ ""

/-- Insertion-ordered grouping (JS `Map` semantics): append to an existing
group, else add a new group at the end. -/
def groupInsert (gs : List (String × List GridRow)) (k : String) (r : GridRow) :
    List (String × List GridRow) :=
  match gs with
  | [] => [(k, [r])]
  | (k', rs) :: rest =>
    if k' == k then (k', rs ++ [r]) :: rest else (k', rs) :: groupInsert rest k r

/-- Group every row by its target key, preserving first-occurrence order. -/
def buildGroups (refRevCol compRevCol : String) (rows : List GridRow) :
    List (String × List GridRow) :=
  rows.foldl (fun gs r => groupInsert gs (targetKeyOf refRevCol compRevCol r) r) []

/-- The control fields skipped by the merge loop. -/
def reservedCols : List String := ["integratedKey", "exists", "standardPK", "standardSK"]

/-- Merge-type column test: `colKey.includes('검토') || colKey.includes('비고')
|| colKey.includes('Remark')`. -/
def isRemarkCol (colKey : String) : Bool :=
  strIncludes colKey "검토" || strIncludes colKey "비고" || strIncludes colKey "Remark"

/-- One column of one merged-away member folded onto the representative:
remark-type columns concatenate with `' / '` (skipping duplicates), other
columns fill only a blank representative value. -/
def mergeCellInto (m : GridRow) (colKey v : String) : GridRow :=
  if reservedCols.contains colKey then m
  else
    let srcVal := jsTrim v
    let destVal := jsTrim (cellStr m colKey)
    if srcVal == "" then m
    else if isRemarkCol colKey then
      if destVal == "" then rowSetCell m colKey srcVal
      else if srcVal ≠ destVal && !(strIncludes destVal srcVal) then
        rowSetCell m colKey (destVal ++ " / " ++ srcVal)
      else m
    else
      if destVal == "" then rowSetCell m colKey v
      else m

/-- Fold a whole member row onto the representative.  (In the source the
`srcRow === mergedRow` test never fires: `mergedRow` was re-bound to a fresh
spread object, so every member — including the representative's original
object — is folded; self-folding is a no-op.) -/
def mergeRowInto (m src : GridRow) : GridRow :=
  src.cells.foldl (fun acc kv => mergeCellInto acc kv.1 kv.2) m

/-- Process one target-key group: singletons are re-keyed when needed;
larger groups merge onto a representative (first `Both`/`Both(M)` member,
else the first member) re-keyed to the target and marked `Both(M)`. -/
def processGroup (refRevCol compRevCol k : String) (rs : List GridRow) : List GridRow :=
  match rs with
  | [] => []
  | [row] =>
    let refVal := jsTrim (cellStr row refRevCol)
    let compVal := jsTrim (cellStr row compRevCol)
    if refVal ≠ "" || compVal ≠ "" || row.integratedKey ≠ k then
      [{ row with integratedKey := k }]
    else [row]
  | r :: rest =>
    let rep := match List.find? isBothish (r :: rest) with
      | some rr => rr
      | none => r
    let merged0 := { rep with integratedKey := k, status := ExistsStatus.bothMerged }
    [(r :: rest).foldl mergeRowInto merged0]

/-- The row-set transformation of `applyReviewCompensation`: no review
changes → unchanged; otherwise group by target key and merge each group. -/
def applyReviewCompensation (mappings : List MappingInfo) (pkColumn : String)
    (rows : List GridRow) : List GridRow :=
  let rc := reviewColsOf mappings pkColumn
  let changes := rows.filter (fun r => hasReviewVal rc.1 rc.2 r)
  if changes.isEmpty then rows
  else
    (buildGroups rc.1 rc.2 rows).flatMap (fun g => processGroup rc.1 rc.2 g.1 g.2)

/-! ### SummaryAggregator (`recalculateSummary`, detailed per-column entry) -/

structure SummaryEntry where
  columnName : String
  refRowCount : ℕ
  compRowCount : ℕ
  sameCount : ℕ
  diffCount : ℕ
  onlyRefCount : ℕ
  onlyCompCount : ℕ
  statusText : String
deriving DecidableEq, Repr

/-- One per-column entry of the detailed summary: key columns (`isPK`/`isSK`)
count all `Both`-ish rows as same and contribute no mismatches. -/
def summaryEntryOf (m : MappingInfo) (rows : List GridRow) : SummaryEntry :=
  let bothRows := rows.filter isBothish
  let onlyRefRows := rows.filter (fun r => r.status == ExistsStatus.onlyRef)
  let onlyCompRows := rows.filter (fun r => r.status == ExistsStatus.onlyComp)
  let colRef := m.refColumn ++ "_기준"
  let colComp := m.refColumn ++ "_비교"
  let refWithVal := ((bothRows ++ onlyRefRows).filter
    (fun r => jsTrim (cellStr r colRef) ≠ "")).length
  let compWithVal := ((bothRows ++ onlyCompRows).filter
    (fun r => jsTrim (cellStr r colComp) ≠ "")).length
  let isKey := m.isPK || m.isSK
  let sameCount := if isKey then bothRows.length
    else (bothRows.filter (fun r => isValuesMatch (cellGet r colRef) (cellGet r colComp))).length
  let mismatchCount := if isKey then 0
    else (bothRows.filter (fun r => !(isValuesMatch (cellGet r colRef) (cellGet r colComp)))).length
  let onlyRefWithVal := (onlyRefRows.filter (fun r => jsTrim (cellStr r colRef) ≠ "")).length
  let onlyCompWithVal := (onlyCompRows.filter (fun r => jsTrim (cellStr r colComp) ≠ "")).length
  { columnName := m.refColumn
    refRowCount := refWithVal
    compRowCount := compWithVal
    sameCount := sameCount
    diffCount := mismatchCount + onlyCompWithVal + onlyRefWithVal
    onlyRefCount := onlyRefWithVal
    onlyCompCount := onlyCompWithVal
    statusText := if mismatchCount > 0 then "값 불일치" else "" }

/-- The detailed summary of `recalculateSummary`: one entry per effective
target mapping. -/
def recalcDetailedSummary (rt : RegexOracle) (mappings : List MappingInfo)
    (columnExclusion : Option ColumnExclusionConfig) (rows : List GridRow) :
    List SummaryEntry :=
  let baseMappings := mappings.filter (fun m => m.isTarget || m.isPK || m.isSK)
  let effectiveMappings := filterMappings rt baseMappings columnExclusion
  (effectiveMappings.filter (fun m => m.isTarget)).map (fun m => summaryEntryOf m rows)

/-! ### CommitEngine per-cell step (`applyAnalysisEngineChanges`, update loop) -/

/-- Outcome of processing one reviewer-edited column of one resolved row. -/
inductive CommitCellOutcome where
  | skippedNull : CommitCellOutcome
  | skippedEmpty : CommitCellOutcome
  | skippedNoColumn : CommitCellOutcome
  | updated (newVal : String) : CommitCellOutcome
  | identicalSkip : CommitCellOutcome
deriving DecidableEq, Repr

/-- The body of the review-column loop: null review → skip; blank review →
no-review counter; unresolvable header → dropped; different trimmed text →
overwrite + highlight (*updated*); identical trimmed text → style reset only
(*identical/skip*). -/
def commitReviewCell (reviewVal : Option String) (colNum : Option ℕ)
    (currentValRaw : String) : CommitCellOutcome :=
  match reviewVal with
  | none => .skippedNull
  | some v =>
    let reviewValStr := jsTrim v
    if reviewValStr == "" then .skippedEmpty
    else
      match colNum with
      | none => .skippedNoColumn
      | some _ =>
        let currentValStr := jsTrim currentValRaw
        if currentValStr ≠ reviewValStr then .updated reviewValStr
        else .identicalSkip

/-- The cell text written by the outcome (`none` = cell left unchanged). -/
def commitNewValue : CommitCellOutcome → Option String
  | .updated v => some v
  | _ => none

/-- Contribution to `updatedCount`. -/
def commitUpdatedDelta : CommitCellOutcome → ℕ
  | .updated _ => 1
  | _ => 0

/-- Contribution to `identicalValueCount`. -/
def commitIdenticalDelta : CommitCellOutcome → ℕ
  | .identicalSkip => 1
  | _ => 0

/-- Whether the outcome resets the cell style to the neutral style. -/
def commitClearsStyle : CommitCellOutcome → Bool
  | .identicalSkip => true
  | _ => false

/-! ### Synthetic identity generation (`generateCheckKey`, `addChecklistItem`) -/

/-- `generateCheckKey()`: increments the module counter and embeds both the
current `Date.now()` and the counter in the key.  The clock is an explicit
input; the counter is explicit state. -/
def generateCheckKey (now counter : ℕ) : String × ℕ :=
  let c := counter + 1
  ("CHECK-" ++ toString now ++ "-" ++ toString c, c)

/-- The integrated key minted by `addChecklistItem`: `` `CHECK-${Date.now()}` ``
(no counter involved). -/
def checklistItemKey (now : ℕ) : String := "CHECK-" ++ toString now

/-- A synthetic-identity generation request. -/
inductive GenOp where
  | check : GenOp
  | checklist : GenOp
deriving DecidableEq, Repr

/-- Run a sequence of generations; each op observes its own clock reading and
the counter state threads through (`resetCheckCounter()` sets it to 0). -/
def runGenKeys : List (GenOp × ℕ) → ℕ → List String
  | [], _ => []
  | (GenOp.check, now) :: rest, counter =>
    (generateCheckKey now counter).1 :: runGenKeys rest (generateCheckKey now counter).2
  | (GenOp.checklist, now) :: rest, counter =>
    checklistItemKey now :: runGenKeys rest counter

/-- Number of counter-consuming generations in a request sequence. -/
def countChecks (ops : List (GenOp × ℕ)) : ℕ :=
  ops.countP (fun p => p.1 == GenOp.check)

/-! ### Value-level views of the merge step (used by the proofs) -/

/-- `String(x || '').trim()` on an optional cell value. -/
def trimOptStr (o : Option String) : String :=
  jsTrim (match o with | some v => v | none => "")

/-- The effect of `mergeCellInto` on the merged column itself, as a function
of the destination cell (optional) and the source value. -/
def mergeValStep (colKey : String) (dest : Option String) (v : String) : Option String :=
  if reservedCols.contains colKey then dest
  else
    let srcVal := jsTrim v
    let destVal := trimOptStr dest
    if srcVal == "" then dest
    else if isRemarkCol colKey then
      if destVal == "" then some srcVal
      else if srcVal ≠ destVal && !(strIncludes destVal srcVal) then
        some (destVal ++ " / " ++ srcVal)
      else dest
    else if destVal == "" then some v else dest

/-- Spec-level merge of one non-reserved column of a two-row duplicate group:
what the representative's cell ends up as, given the representative's
current text `d` and the other member's text `s` (empty string = absent). -/
def mergeTwoSpec (colKey d s : String) : String :=
  if reservedCols.contains colKey then d
  else if jsTrim s == "" then d
  else if isRemarkCol colKey then
    if jsTrim d == "" then jsTrim s
    else if jsTrim s ≠ jsTrim d && !(strIncludes (jsTrim d) (jsTrim s)) then
      jsTrim d ++ " / " ++ jsTrim s
    else d
  else if jsTrim d == "" then s else d

/-- `String(x || '')` on an optional cell value. -/
def optCellStr (o : Option String) : String :=
  match o with
  | some v => v
  | none => ""

/-- Lookup of a group by key (JS `Map.get` on the insertion-ordered list). -/
def groupLookup (gs : List (String × List GridRow)) (k : String) : List GridRow :=
  match List.find? (fun g => g.1 == k) gs with
  | some g => g.2
  | none => []

/-- The principle-1 provenance of a trace row: a `Both` row that did not come
from the secondary-key fallback, as its (reference, comparison) index pair. -/
def pairFn (t : TraceRow) : Option (ℕ × ℕ) :=
  match t with
  | ⟨some i, some j, ExistsStatus.both, false⟩ => some (i, j)
  | _ => none

/-! ## Supporting lemmas -/

theorem mk_eq_empty_iff (l : List Char) : String.mk l = "" ↔ l = [] := by
  constructor
  · intro h
    have h2 : (String.mk l).data = ("" : String).data := congrArg String.data h
    exact h2
  · intro h
    subst h
    rfl

theorem jsToLower_eq_empty_iff (s : String) : jsToLower s = "" ↔ s = "" := by
  unfold jsToLower
  rw [mk_eq_empty_iff, List.map_eq_nil_iff]
  cases s with
  | mk data =>
    constructor
    · intro h
      exact congrArg String.mk h
    · intro h
      exact congrArg String.data h

theorem getIntegratedKey_ne_empty (a b : String) (st : ExistsStatus) :
    getIntegratedKey a b st ≠ "" := by
  simp only [getIntegratedKey]
  split_ifs with h1 h2
  · exact h1
  · exact h2
  · decide

theorem head?_of_front {l t : List Char} {c : Char} (h : l <+: t) (hc : l.head? = some c) :
    t.head? = some c := by
  obtain ⟨r, rfl⟩ := h
  cases l with
  | nil => exact absurd hc (by simp)
  | cons a l' =>
    simp only [List.head?_cons, Option.some.injEq] at hc
    simp [hc]

theorem dropWs_head {l : List Char} {c : Char} (h : (dropWsL l).head? = some c) :
    isJsWs c = false := by
  have hmain := List.head?_dropWhile_not isJsWs l
  rw [show List.dropWhile isJsWs l = dropWsL l from rfl] at hmain
  rw [h] at hmain
  exact hmain

theorem dropWs_of_head_not {l : List Char}
    (h : ∀ c, l.head? = some c → isJsWs c = false) : dropWsL l = l := by
  cases l with
  | nil => rfl
  | cons a t =>
    have ha := h a rfl
    simp [dropWsL, List.dropWhile_cons, ha]

theorem jsTrimL_eq (l : List Char) :
    jsTrimL l = dropWsL ((dropWsL l.reverse).reverse) := by
  simp [jsTrimL, List.reverse_reverse]

theorem jsTrimL_idem (l : List Char) : jsTrimL (jsTrimL l) = jsTrimL l := by
  rw [jsTrimL_eq l, jsTrimL_eq]
  have step1 : dropWsL ((dropWsL ((dropWsL l.reverse).reverse)).reverse) =
      (dropWsL ((dropWsL l.reverse).reverse)).reverse := by
    apply dropWs_of_head_not
    intro c hc
    have hsuff : dropWsL ((dropWsL l.reverse).reverse) <:+ (dropWsL l.reverse).reverse :=
      List.dropWhile_suffix isJsWs
    have hpre : (dropWsL ((dropWsL l.reverse).reverse)).reverse <+: dropWsL l.reverse :=
      List.reverse_suffix.mp (by simpa using hsuff)
    exact dropWs_head (head?_of_front hpre hc)
  rw [step1, List.reverse_reverse]
  exact List.dropWhile_idempotent isJsWs ((dropWsL l.reverse).reverse)

theorem jsTrim_idem (s : String) : jsTrim (jsTrim s) = jsTrim s := by
  unfold jsTrim
  exact congrArg String.mk (jsTrimL_idem s.data)

theorem keyPartL_cons_eq {c : Char} {t : List Char}
    (hne : ∀ tail, c = ':' → t = ':' :: tail → False) :
    keyPartL (c :: t) = c :: keyPartL t := by
  rw [keyPartL.eq_def]
  split
  · rename_i heq
    exact absurd heq (by simp)
  · rename_i x heq
    injection heq with h1 h2
    exact (hne x h1 h2).elim
  · rename_i x1 c2 t2 hcond heq
    injection heq with h1 h2
    subst h2
    rw [h1]

theorem keyPartL_head {l : List Char} {c : Char} {r : List Char}
    (h : keyPartL l = c :: r) : ∃ t, l = c :: t := by
  cases l with
  | nil => simp [keyPartL] at h
  | cons a t =>
    rw [keyPartL.eq_def] at h
    split at h
    · simp at h
    · simp at h
    · rename_i x1 c2 t2 hcond heq
      injection heq with g1 g2
      subst g2
      injection h with h1 h2
      exact ⟨t, by rw [g1, h1]⟩

theorem hasSepL_keyPartL (l : List Char) : hasSepL (keyPartL l) = false := by
  induction l using keyPartL.induct with
  | case1 => rfl
  | case2 t => rfl
  | case3 c t hne ih =>
    rw [keyPartL_cons_eq hne]
    rw [hasSepL.eq_def]
    split
    · rename_i heq
      exact absurd heq (by simp)
    · rename_i x heq
      injection heq with h1 h2
      obtain ⟨t2, ht2⟩ := keyPartL_head h2
      exact (hne t2 h1 ht2).elim
    · rename_i x1 c2 t2 hcond heq
      injection heq with h1 h2
      rw [← h2]
      exact ih

theorem hasSepL_cons_eq {c : Char} {t : List Char}
    (hne : ∀ tail, c = ':' → t = ':' :: tail → False) :
    hasSepL (c :: t) = hasSepL t := by
  rw [hasSepL.eq_def]
  split
  · rename_i heq
    exact absurd heq (by simp)
  · rename_i x heq
    injection heq with h1 h2
    exact (hne x h1 h2).elim
  · rename_i x1 c2 t2 hcond heq
    injection heq with h1 h2
    rw [h2]

theorem keyPartL_of_no_sep {l : List Char} (h : hasSepL l = false) : keyPartL l = l := by
  induction l using keyPartL.induct with
  | case1 => rfl
  | case2 t =>
    simp [hasSepL] at h
  | case3 c t hne ih =>
    rw [keyPartL_cons_eq hne]
    rw [hasSepL_cons_eq hne] at h
    rw [ih h]


theorem hasSep_keyPart (s : String) : hasSep (keyPart s) = false :=
  hasSepL_keyPartL s.data

theorem keyPart_of_no_sep {s : String} (h : hasSep s = false) : keyPart s = s := by
  unfold keyPart
  rw [keyPartL_of_no_sep h]

theorem keyPart_idem (s : String) : keyPart (keyPart s) = keyPart s :=
  keyPart_of_no_sep (hasSep_keyPart s)

/-! ### Cell access lemmas -/

theorem find?_cellSet_self (cs : List (String × String)) (k v : String) :
    List.find? (fun kv => kv.1 == k) (cellSet cs k v) = some (k, v) := by
  induction cs with
  | nil => simp [cellSet, List.find?]
  | cons kv rest ih =>
    by_cases h : kv.1 == k
    · simp [cellSet, h, List.find?]
    · simp only [cellSet, h, Bool.false_eq_true, if_false]
      rw [List.find?_cons]
      simp only [h]
      exact ih

theorem find?_cellSet_ne (cs : List (String × String)) (k v k' : String) (h : k' ≠ k) :
    List.find? (fun kv => kv.1 == k') (cellSet cs k v) =
      List.find? (fun kv => kv.1 == k') cs := by
  have hkk : (k == k') = false := beq_false_of_ne (fun hc => h hc.symm)
  induction cs with
  | nil => simp [cellSet, List.find?, hkk]
  | cons kv rest ih =>
    by_cases hh : kv.1 == k
    · have h1 : kv.1 = k := eq_of_beq hh
      simp only [cellSet, hh, if_true]
      rw [List.find?_cons, List.find?_cons]
      have h2 : (kv.1 == k') = false := by
        rw [h1]
        exact hkk
      simp [hkk, h2]
    · simp only [cellSet, hh, Bool.false_eq_true, if_false]
      rw [List.find?_cons, List.find?_cons]
      cases hkv : (kv.1 == k') with
      | true => rfl
      | false => exact ih

theorem cellGet_rowSetCell_self (r : GridRow) (k v : String) :
    cellGet (rowSetCell r k v) k = some v := by
  unfold cellGet rowSetCell
  simp [find?_cellSet_self]

theorem cellGet_rowSetCell_ne (r : GridRow) (k v k' : String) (h : k' ≠ k) :
    cellGet (rowSetCell r k v) k' = cellGet r k' := by
  unfold cellGet rowSetCell
  simp [find?_cellSet_ne _ _ _ _ h]

theorem rowSetCell_integratedKey (r : GridRow) (k v : String) :
    (rowSetCell r k v).integratedKey = r.integratedKey := rfl

theorem jsTrim_cellStr (r : GridRow) (k : String) :
    jsTrim (cellStr r k) = trimOptStr (cellGet r k) := rfl

/-! ### Characterization of trim-stable strings -/

theorem jsTrimL_eq_self_of {l : List Char}
    (hh : ∀ c, l.head? = some c → isJsWs c = false)
    (hl : ∀ c, l.getLast? = some c → isJsWs c = false) : jsTrimL l = l := by
  rw [jsTrimL_eq]
  have h1 : dropWsL l.reverse = l.reverse := by
    apply dropWs_of_head_not
    intro c hc
    rw [List.head?_reverse] at hc
    exact hl c hc
  rw [h1, List.reverse_reverse]
  exact dropWs_of_head_not hh

theorem head_of_jsTrim_self {l : List Char} (h : jsTrimL l = l) :
    ∀ c, l.head? = some c → isJsWs c = false := by
  intro c hc
  rw [← h, jsTrimL_eq] at hc
  exact dropWs_head hc

theorem last_of_jsTrim_self {l : List Char} (h : jsTrimL l = l) :
    ∀ c, l.getLast? = some c → isJsWs c = false := by
  intro c hc
  rw [← h, jsTrimL_eq] at hc
  have hsuff : dropWsL ((dropWsL l.reverse).reverse) <:+ (dropWsL l.reverse).reverse :=
    List.dropWhile_suffix isJsWs
  obtain ⟨t, ht⟩ := hsuff
  have hY : ((dropWsL l.reverse).reverse).getLast? = some c := by
    rw [← ht, List.getLast?_append, hc]
    rfl
  have h2 : (dropWsL l.reverse).head? = some c := by
    have h3 := List.head?_reverse ((dropWsL l.reverse).reverse)
    rw [List.reverse_reverse] at h3
    rw [h3]
    exact hY
  exact dropWs_head h2

theorem data_eq_of_string {s t : String} (h : s = t) : s.data = t.data := congrArg String.data h

theorem jsTrimL_data_of_jsTrim {s : String} (h : jsTrim s = s) : jsTrimL s.data = s.data :=
  data_eq_of_string h

theorem string_ne_empty_data {s : String} (h : s ≠ "") : s.data ≠ [] := by
  intro hc
  exact h (String.ext hc)

theorem jsTrim_eq_self_of {s : String}
    (hh : ∀ c, s.data.head? = some c → isJsWs c = false)
    (hl : ∀ c, s.data.getLast? = some c → isJsWs c = false) : jsTrim s = s := by
  unfold jsTrim
  rw [jsTrimL_eq_self_of hh hl]

theorem concat_data (x y : String) :
    (x ++ " / " ++ y).data = x.data ++ (" / " : String).data ++ y.data := by
  rw [String.data_append, String.data_append]

theorem concat_trim_stable {x y : String} (hx : jsTrim x = x) (hxne : x ≠ "")
    (hy : jsTrim y = y) (hyne : y ≠ "") :
    jsTrim (x ++ " / " ++ y) = x ++ " / " ++ y := by
  apply jsTrim_eq_self_of
  · intro c hc
    rw [concat_data, List.head?_append, List.head?_append] at hc
    cases hxd : x.data with
    | nil => exact absurd hxd (string_ne_empty_data hxne)
    | cons a t =>
      rw [hxd] at hc
      have ha : x.data.head? = some a := by rw [hxd]; rfl
      have hc2 : a = c := by
        simpa [Option.or] using hc
      rw [← hc2]
      exact head_of_jsTrim_self (jsTrimL_data_of_jsTrim hx) a ha
  · intro c hc
    rw [concat_data, List.getLast?_append] at hc
    cases hgl : y.data.getLast? with
    | none =>
      have hnil : y.data = [] := by
        cases hyd : y.data with
        | nil => rfl
        | cons a t =>
          rw [hyd] at hgl
          rw [List.getLast?_eq_getLast _ (by simp)] at hgl
          exact absurd hgl (by simp)
      exact absurd hnil (string_ne_empty_data hyne)
    | some d =>
      rw [hgl] at hc
      have hcd : d = c := by
        simpa [Option.or] using hc
      rw [← hcd]
      exact last_of_jsTrim_self (jsTrimL_data_of_jsTrim hy) d hgl

theorem includesL_of_isPrefixOf {sub hay : List Char} (h : sub.isPrefixOf hay = true) :
    includesL sub hay = true := by
  cases hay with
  | nil =>
    have : sub = [] := by
      cases sub with
      | nil => rfl
      | cons a t => simp [List.isPrefixOf] at h
    rw [this]
    rfl
  | cons c t =>
    unfold includesL
    rw [h]
    rfl

theorem strIncludes_self_append (x y : String) : strIncludes (x ++ y) x = true := by
  unfold strIncludes
  apply includesL_of_isPrefixOf
  rw [String.data_append]
  exact List.isPrefixOf_iff_prefix.mpr (List.prefix_append x.data y.data)

theorem ne_concat (x y : String) : x ≠ x ++ " / " ++ y := by
  intro h
  have hlen := congrArg String.length h
  rw [String.length_append, String.length_append] at hlen
  have h3 : (" / " : String).length = 3 := rfl
  omega

/-! ### The merge fold, column by column -/

theorem cellGet_mergeCellInto_self (m : GridRow) (colKey v : String) :
    cellGet (mergeCellInto m colKey v) colKey = mergeValStep colKey (cellGet m colKey) v := by
  simp only [mergeCellInto, mergeValStep, jsTrim_cellStr]
  split_ifs <;> simp [cellGet_rowSetCell_self]

theorem cellGet_mergeCellInto_ne (m : GridRow) (colKey v k' : String) (h : k' ≠ colKey) :
    cellGet (mergeCellInto m colKey v) k' = cellGet m k' := by
  simp only [mergeCellInto]
  split_ifs <;> simp [cellGet_rowSetCell_ne _ _ _ _ h]

theorem mergeCellInto_integratedKey (m : GridRow) (colKey v : String) :
    (mergeCellInto m colKey v).integratedKey = m.integratedKey := by
  simp only [mergeCellInto]
  split_ifs <;> rfl

theorem mergeCellInto_status (m : GridRow) (colKey v : String) :
    (mergeCellInto m colKey v).status = m.status := by
  simp only [mergeCellInto]
  split_ifs <;> rfl

theorem mergeCellInto_standardPK (m : GridRow) (colKey v : String) :
    (mergeCellInto m colKey v).standardPK = m.standardPK := by
  simp only [mergeCellInto]
  split_ifs <;> rfl

theorem mergeCellInto_standardSK (m : GridRow) (colKey v : String) :
    (mergeCellInto m colKey v).standardSK = m.standardSK := by
  simp only [mergeCellInto]
  split_ifs <;> rfl

theorem foldMergeCells_at (cs : List (String × String)) (m : GridRow) (a : String) :
    cellGet (cs.foldl (fun acc kv => mergeCellInto acc kv.1 kv.2) m) a =
      ((cs.filter (fun kv => kv.1 == a)).map Prod.snd).foldl (mergeValStep a) (cellGet m a) := by
  induction cs generalizing m with
  | nil => rfl
  | cons kv rest ih =>
    by_cases h : kv.1 = a
    · subst h
      have hb : (kv.1 == kv.1) = true := by simp
      simp only [List.foldl_cons, List.filter_cons, hb, if_true, List.map_cons]
      rw [ih, cellGet_mergeCellInto_self]
    · have hb : (kv.1 == a) = false := beq_false_of_ne h
      simp only [List.foldl_cons, List.filter_cons, hb, Bool.false_eq_true, if_false]
      rw [ih, cellGet_mergeCellInto_ne _ _ _ _ (fun hc => h hc.symm)]

theorem mergeRowInto_at (m src : GridRow) (a : String) :
    cellGet (mergeRowInto m src) a =
      ((src.cells.filter (fun kv => kv.1 == a)).map Prod.snd).foldl
        (mergeValStep a) (cellGet m a) :=
  foldMergeCells_at src.cells m a

theorem mergeRowInto_integratedKey (m src : GridRow) :
    (mergeRowInto m src).integratedKey = m.integratedKey := by
  unfold mergeRowInto
  induction src.cells generalizing m with
  | nil => rfl
  | cons kv rest ih =>
    simp only [List.foldl_cons]
    rw [ih, mergeCellInto_integratedKey]

theorem mergeRowInto_status (m src : GridRow) :
    (mergeRowInto m src).status = m.status := by
  unfold mergeRowInto
  induction src.cells generalizing m with
  | nil => rfl
  | cons kv rest ih =>
    simp only [List.foldl_cons]
    rw [ih, mergeCellInto_status]

theorem mergeRowInto_standardPK (m src : GridRow) :
    (mergeRowInto m src).standardPK = m.standardPK := by
  unfold mergeRowInto
  induction src.cells generalizing m with
  | nil => rfl
  | cons kv rest ih =>
    simp only [List.foldl_cons]
    rw [ih, mergeCellInto_standardPK]

theorem mergeRowInto_standardSK (m src : GridRow) :
    (mergeRowInto m src).standardSK = m.standardSK := by
  unfold mergeRowInto
  induction src.cells generalizing m with
  | nil => rfl
  | cons kv rest ih =>
    simp only [List.foldl_cons]
    rw [ih, mergeCellInto_standardSK]

theorem groupFold_at (rs : List GridRow) (m : GridRow) (a : String) :
    cellGet (rs.foldl mergeRowInto m) a =
      (rs.flatMap (fun r => (r.cells.filter (fun kv => kv.1 == a)).map Prod.snd)).foldl
        (mergeValStep a) (cellGet m a) := by
  induction rs generalizing m with
  | nil => rfl
  | cons r rest ih =>
    simp only [List.foldl_cons, List.flatMap_cons, List.foldl_append]
    rw [ih, mergeRowInto_at]

theorem groupFold_integratedKey (rs : List GridRow) (m : GridRow) :
    (rs.foldl mergeRowInto m).integratedKey = m.integratedKey := by
  induction rs generalizing m with
  | nil => rfl
  | cons r rest ih =>
    simp only [List.foldl_cons]
    rw [ih, mergeRowInto_integratedKey]

theorem groupFold_status (rs : List GridRow) (m : GridRow) :
    (rs.foldl mergeRowInto m).status = m.status := by
  induction rs generalizing m with
  | nil => rfl
  | cons r rest ih =>
    simp only [List.foldl_cons]
    rw [ih, mergeRowInto_status]

theorem append_ne_of_not_suffix {x s u : String} (h : ¬ (s.data <:+ u.data)) :
    x ++ s ≠ u := by
  intro hc
  apply h
  have hd := congrArg String.data hc
  rw [String.data_append] at hd
  exact ⟨x.data, hd⟩

theorem refRevCol_not_reserved (x : String) :
    reservedCols.contains (x ++ "_기준검토") = false := by
  have h1 := append_ne_of_not_suffix (x := x) (s := "_기준검토") (u := "integratedKey") (by decide)
  have h2 := append_ne_of_not_suffix (x := x) (s := "_기준검토") (u := "exists") (by decide)
  have h3 := append_ne_of_not_suffix (x := x) (s := "_기준검토") (u := "standardPK") (by decide)
  have h4 := append_ne_of_not_suffix (x := x) (s := "_기준검토") (u := "standardSK") (by decide)
  simp [reservedCols, List.contains, h1, h2, h3, h4]

theorem compRevCol_not_reserved (x : String) :
    reservedCols.contains (x ++ "_비교검토") = false := by
  have h1 := append_ne_of_not_suffix (x := x) (s := "_비교검토") (u := "integratedKey") (by decide)
  have h2 := append_ne_of_not_suffix (x := x) (s := "_비교검토") (u := "exists") (by decide)
  have h3 := append_ne_of_not_suffix (x := x) (s := "_비교검토") (u := "standardPK") (by decide)
  have h4 := append_ne_of_not_suffix (x := x) (s := "_비교검토") (u := "standardSK") (by decide)
  simp [reservedCols, List.contains, h1, h2, h3, h4]

theorem trimOptStr_some_trim (v : String) : trimOptStr (some (jsTrim v)) = jsTrim v := by
  unfold trimOptStr
  exact jsTrim_idem v

theorem trimOptStr_some (v : String) : trimOptStr (some v) = jsTrim v := rfl

/-- One `mergeValStep` on a non-reserved column keeps the trimmed cell value
inside `{"", k}` when the source's trimmed value is in `{"", k}`; and the
cell can only stay blank if both sides were blank. -/
theorem mergeValStep_inv {a k : String} {d : Option String} {v : String}
    (hnr : reservedCols.contains a = false)
    (hv : jsTrim v = "" ∨ jsTrim v = k)
    (hd : trimOptStr d = "" ∨ trimOptStr d = k) :
    (trimOptStr (mergeValStep a d v) = "" ∨ trimOptStr (mergeValStep a d v) = k) ∧
    (trimOptStr (mergeValStep a d v) = "" → trimOptStr d = "" ∧ jsTrim v = "") := by
  simp only [mergeValStep]
  split_ifs with h1 h2 h3 h4 h5 h6
  · rw [h1] at hnr
    exact absurd hnr (by simp)
  · exact ⟨hd, fun h => ⟨h, eq_of_beq h2⟩⟩
  · have hvk : jsTrim v = k := by
      rcases hv with hv | hv
      · exact absurd (beq_of_eq hv) (by simpa using h2)
      · exact hv
    rw [trimOptStr_some_trim]
    refine ⟨Or.inr hvk, fun h => ?_⟩
    exact absurd (beq_of_eq h) (by simpa using h2)
  · exfalso
    have hdk : trimOptStr d = k := by
      rcases hd with hd | hd
      · exact absurd (beq_of_eq hd) (by simpa using h4)
      · exact hd
    have hvk : jsTrim v = k := by
      rcases hv with hv | hv
      · exact absurd (beq_of_eq hv) (by simpa using h2)
      · exact hv
    rw [Bool.and_eq_true] at h5
    have hne : jsTrim v ≠ trimOptStr d := of_decide_eq_true h5.1
    exact hne (hvk.trans hdk.symm)
  · refine ⟨hd, fun h => ?_⟩
    exact absurd (beq_of_eq h) (by simpa using h4)
  · have hvk : jsTrim v = k := by
      rcases hv with hv | hv
      · exact absurd (beq_of_eq hv) (by simpa using h2)
      · exact hv
    rw [trimOptStr_some]
    refine ⟨Or.inr hvk, fun h => ?_⟩
    exact absurd (beq_of_eq h) (by simpa using h2)
  · refine ⟨hd, fun h => ?_⟩
    exact absurd (beq_of_eq h) (by simpa using h6)

/-- The fold of `mergeValStep` over the members' values keeps the trimmed
cell inside `{"", k}`, and yields a blank cell only when everything was
blank. -/
theorem foldVS {a k : String} (vals : List String) (d : Option String)
    (hnr : reservedCols.contains a = false)
    (hvals : ∀ v ∈ vals, jsTrim v = "" ∨ jsTrim v = k)
    (hd : trimOptStr d = "" ∨ trimOptStr d = k) :
    (trimOptStr (vals.foldl (mergeValStep a) d) = "" ∨
      trimOptStr (vals.foldl (mergeValStep a) d) = k) ∧
    (trimOptStr (vals.foldl (mergeValStep a) d) = "" →
      trimOptStr d = "" ∧ ∀ v ∈ vals, jsTrim v = "") := by
  induction vals generalizing d with
  | nil => exact ⟨hd, fun h => ⟨h, by simp⟩⟩
  | cons v rest ih =>
    have hv := hvals v (List.mem_cons_self v rest)
    have hstep := mergeValStep_inv (d := d) (v := v) hnr hv hd
    have hrest := ih (mergeValStep a d v)
      (fun w hw => hvals w (List.mem_cons_of_mem v hw)) hstep.1
    refine ⟨hrest.1, fun h => ?_⟩
    obtain ⟨hmid, hall⟩ := hrest.2 h
    obtain ⟨hd0, hv0⟩ := hstep.2 hmid
    refine ⟨hd0, fun w hw => ?_⟩
    rcases List.mem_cons.mp hw with hw | hw
    · rw [hw]
      exact hv0
    · exact hall w hw

theorem filter_map_of_nodup (cs : List (String × String)) (a : String)
    (h : (cs.map Prod.fst).Nodup) :
    (cs.filter (fun kv => kv.1 == a)).map Prod.snd =
      (match List.find? (fun kv => kv.1 == a) cs with
       | some kv => [kv.2]
       | none => []) := by
  induction cs with
  | nil => rfl
  | cons kv rest ih =>
    simp only [List.map_cons, List.nodup_cons] at h
    obtain ⟨hnotin, hrest⟩ := h
    rw [List.filter_cons, List.find?_cons]
    cases hb : (kv.1 == a) with
    | false =>
      simp only [Bool.false_eq_true, if_false]
      exact ih hrest
    | true =>
      have ha : kv.1 = a := eq_of_beq hb
      simp only [if_true, List.map_cons]
      have hfnil : rest.filter (fun kv2 => kv2.1 == a) = [] := by
        rw [List.filter_eq_nil_iff]
        intro kv2 hkv2 hb2
        apply hnotin
        have : kv2.1 = a := eq_of_beq hb2
        rw [← ha] at this
        rw [← this]
        exact List.mem_map_of_mem Prod.fst hkv2
      rw [hfnil]
      rfl

/-! ### Grouping lemmas -/

theorem groupLookup_groupInsert_self (gs : List (String × List GridRow)) (k : String)
    (r : GridRow) : groupLookup (groupInsert gs k r) k = groupLookup gs k ++ [r] := by
  induction gs with
  | nil => simp [groupInsert, groupLookup, List.find?]
  | cons g rest ih =>
    obtain ⟨k', rs⟩ := g
    by_cases h : k' == k
    · have hk : k' = k := eq_of_beq h
      subst hk
      simp [groupInsert, groupLookup, List.find?]
    · simp only [groupInsert, h, Bool.false_eq_true, if_false]
      unfold groupLookup
      rw [List.find?_cons, List.find?_cons]
      simp only [h]
      exact ih

theorem groupLookup_groupInsert_ne (gs : List (String × List GridRow)) (k k' : String)
    (r : GridRow) (h : k' ≠ k) :
    groupLookup (groupInsert gs k r) k' = groupLookup gs k' := by
  induction gs with
  | nil =>
    simp [groupInsert, groupLookup, List.find?, beq_false_of_ne (fun hc => h hc.symm)]
  | cons g rest ih =>
    obtain ⟨k2, rs⟩ := g
    by_cases hh : k2 == k
    · simp only [groupInsert, hh, if_true]
      unfold groupLookup
      rw [List.find?_cons, List.find?_cons]
      have hfalse : (k2 == k') = false := by
        apply beq_false_of_ne
        intro hc
        exact h (hc.symm.trans (eq_of_beq hh))
      simp [hfalse]
    · simp only [groupInsert, hh, Bool.false_eq_true, if_false]
      unfold groupLookup
      rw [List.find?_cons, List.find?_cons]
      cases hkv : (k2 == k') with
      | true => rfl
      | false => exact ih

theorem buildGroups_go (a b : String) (rows : List GridRow)
    (gs : List (String × List GridRow)) (k : String) :
    groupLookup (rows.foldl (fun acc r => groupInsert acc (targetKeyOf a b r) r) gs) k =
      groupLookup gs k ++ rows.filter (fun r => targetKeyOf a b r == k) := by
  induction rows generalizing gs with
  | nil => simp
  | cons r rest ih =>
    simp only [List.foldl_cons, List.filter_cons]
    rw [ih]
    by_cases h : (targetKeyOf a b r == k) = true
    · have hk : targetKeyOf a b r = k := eq_of_beq h
      rw [hk, groupLookup_groupInsert_self]
      simp [h, hk]
    · have hne : targetKeyOf a b r ≠ k := fun hc => h (beq_of_eq hc)
      rw [groupLookup_groupInsert_ne gs (targetKeyOf a b r) k r (fun hc => hne hc.symm)]
      simp [hne]

theorem buildGroups_lookup (a b : String) (rows : List GridRow) (k : String) :
    groupLookup (buildGroups a b rows) k =
      rows.filter (fun r => targetKeyOf a b r == k) := by
  unfold buildGroups
  rw [buildGroups_go]
  rfl

theorem groupInsert_keys (gs : List (String × List GridRow)) (k : String) (r : GridRow) :
    (groupInsert gs k r).map Prod.fst =
      if k ∈ gs.map Prod.fst then gs.map Prod.fst else gs.map Prod.fst ++ [k] := by
  induction gs with
  | nil => simp [groupInsert]
  | cons g rest ih =>
    obtain ⟨k2, rs⟩ := g
    by_cases h : k2 == k
    · have hk : k2 = k := eq_of_beq h
      simp [groupInsert, h, hk]
    · have hne : k2 ≠ k := fun hc => h (beq_of_eq hc)
      simp only [groupInsert, h, Bool.false_eq_true, if_false, List.map_cons, ih]
      by_cases hmem : k ∈ rest.map Prod.fst
      · simp [hmem, hne.symm]
      · simp [hmem, hne.symm]

theorem buildGroups_keys_nodup (a b : String) (rows : List GridRow) :
    ((buildGroups a b rows).map Prod.fst).Nodup := by
  unfold buildGroups
  suffices h : ∀ gs : List (String × List GridRow), (gs.map Prod.fst).Nodup →
      ((rows.foldl (fun acc r => groupInsert acc (targetKeyOf a b r) r) gs).map
        Prod.fst).Nodup by
    exact h [] (by simp)
  induction rows with
  | nil => intro gs hgs; exact hgs
  | cons r rest ih =>
    intro gs hgs
    simp only [List.foldl_cons]
    apply ih
    rw [groupInsert_keys]
    by_cases hmem : targetKeyOf a b r ∈ gs.map Prod.fst
    · simp [hmem, hgs]
    · simp [hmem, hgs, List.nodup_append]

theorem buildGroups_keys_sub_go (a b : String) (rows : List GridRow) :
    ∀ (gs : List (String × List GridRow)) (k : String),
      k ∈ ((rows.foldl (fun acc r => groupInsert acc (targetKeyOf a b r) r) gs).map
        Prod.fst) → k ∈ gs.map Prod.fst ∨ ∃ r ∈ rows, targetKeyOf a b r = k := by
  induction rows with
  | nil => intro gs k hin; exact Or.inl hin
  | cons r rest ih =>
    intro gs k hin
    simp only [List.foldl_cons] at hin
    rcases ih (groupInsert gs (targetKeyOf a b r) r) k hin with hin2 | hout
    · rw [groupInsert_keys] at hin2
      by_cases hmem : targetKeyOf a b r ∈ gs.map Prod.fst
      · rw [if_pos hmem] at hin2
        exact Or.inl hin2
      · rw [if_neg hmem] at hin2
        rcases List.mem_append.mp hin2 with hin3 | hin3
        · exact Or.inl hin3
        · simp only [List.mem_singleton] at hin3
          exact Or.inr ⟨r, List.mem_cons_self r rest, hin3.symm⟩
    · obtain ⟨r2, hr2, ht2⟩ := hout
      exact Or.inr ⟨r2, List.mem_cons_of_mem r hr2, ht2⟩

theorem buildGroups_keys_sub (a b : String) (rows : List GridRow) (k : String)
    (h : k ∈ (buildGroups a b rows).map Prod.fst) :
    ∃ r ∈ rows, targetKeyOf a b r = k := by
  unfold buildGroups at h
  rcases buildGroups_keys_sub_go a b rows [] k h with hin | hout
  · simp at hin
  · exact hout

theorem find?_eq_of_mem_nodup {gs : List (String × List GridRow)} {k : String}
    {rs : List GridRow} (hmem : (k, rs) ∈ gs) (hnodup : (gs.map Prod.fst).Nodup) :
    List.find? (fun g => g.1 == k) gs = some (k, rs) := by
  induction gs with
  | nil => simp at hmem
  | cons g rest ih =>
    simp only [List.map_cons, List.nodup_cons] at hnodup
    obtain ⟨hnotin, hrest⟩ := hnodup
    rw [List.find?_cons]
    rcases List.mem_cons.mp hmem with heq | hmem2
    · rw [← heq]
      simp
    · have hk : k ∈ rest.map Prod.fst := by
        have := List.mem_map_of_mem Prod.fst hmem2
        exact this
      have hne : (g.1 == k) = false := beq_false_of_ne (fun hc => hnotin (hc ▸ hk))
      simp only [hne]
      exact ih hmem2 hrest

theorem buildGroups_mem_eq_lookup (a b : String) (rows : List GridRow)
    {k : String} {rs : List GridRow} (h : (k, rs) ∈ buildGroups a b rows) :
    rs = rows.filter (fun r => targetKeyOf a b r == k) := by
  have hnodup := buildGroups_keys_nodup a b rows
  rw [← buildGroups_lookup a b rows k]
  unfold groupLookup
  rw [find?_eq_of_mem_nodup h hnodup]

/-! ### Target keys of group members and of processed groups -/

theorem member_facts {a b k : String} {r : GridRow}
    (hsa : hasSep (jsTrim (cellStr r a)) = false)
    (hsb : hasSep (jsTrim (cellStr r b)) = false)
    (ht : targetKeyOf a b r = k) :
    (jsTrim (cellStr r a) = "" ∨ jsTrim (cellStr r a) = k) ∧
    ((jsTrim (cellStr r a) = "") → (jsTrim (cellStr r b) = "" ∨ jsTrim (cellStr r b) = k)) ∧
    hasSep k = false := by
  simp only [targetKeyOf] at ht
  by_cases hva : jsTrim (cellStr r a) = ""
  · rw [if_neg (by simp [hva])] at ht
    by_cases hvb : jsTrim (cellStr r b) = ""
    · rw [if_neg (by simp [hvb])] at ht
      exact ⟨Or.inl hva, fun _ => Or.inl hvb, ht ▸ hasSep_keyPart _⟩
    · rw [if_pos hvb] at ht
      rw [keyPart_of_no_sep hsb] at ht
      exact ⟨Or.inl hva, fun _ => Or.inr ht, ht ▸ hsb⟩
  · rw [if_pos hva, keyPart_of_no_sep hsa] at ht
    exact ⟨Or.inr ht, fun h => absurd h hva, ht ▸ hsa⟩

theorem target_of_parts {a b k : String} {r : GridRow}
    (hk : r.integratedKey = k)
    (hva : jsTrim (cellStr r a) = "" ∨ jsTrim (cellStr r a) = k)
    (hvb : jsTrim (cellStr r a) = "" →
      (jsTrim (cellStr r b) = "" ∨ jsTrim (cellStr r b) = k))
    (hks : hasSep k = false) :
    targetKeyOf a b r = k := by
  simp only [targetKeyOf]
  have hkk := keyPart_of_no_sep hks
  by_cases hva0 : jsTrim (cellStr r a) = ""
  · rw [if_neg (by simp [hva0])]
    by_cases hvb0 : jsTrim (cellStr r b) = ""
    · rw [if_neg (by simp [hvb0]), hk, hkk]
    · rw [if_pos hvb0]
      rcases hvb hva0 with h | h
      · exact absurd h hvb0
      · rw [h, hkk]
  · rw [if_pos hva0]
    rcases hva with h | h
    · exact absurd h hva0
    · rw [h, hkk]

theorem processGroup_keys {a b k : String} {rs : List GridRow} (h : rs ≠ []) :
    (processGroup a b k rs).map (fun r => r.integratedKey) = [k] := by
  match rs with
  | [] => exact absurd rfl h
  | [row] =>
    simp only [processGroup]
    split_ifs with hcond
    · rfl
    · simp only [ne_eq, Bool.or_eq_true, decide_eq_true_eq, not_or, not_not] at hcond
      obtain ⟨-, hkey⟩ := hcond
      simp [hkey]
  | r1 :: r2 :: rest =>
    simp only [processGroup, List.map_cons, List.map_nil]
    rw [groupFold_integratedKey]

theorem processGroup_length {a b k : String} {rs : List GridRow} (h : rs ≠ []) :
    (processGroup a b k rs).length = 1 := by
  have := processGroup_keys (a := a) (b := b) (k := k) h
  have hlen := congrArg List.length this
  simpa using hlen

theorem mem_flat_vals {rs : List GridRow} {a v : String}
    (hnodup : ∀ r ∈ rs, (r.cells.map Prod.fst).Nodup)
    (hv : v ∈ rs.flatMap (fun r => (r.cells.filter (fun kv => kv.1 == a)).map Prod.snd)) :
    ∃ r ∈ rs, cellGet r a = some v := by
  rw [List.mem_flatMap] at hv
  obtain ⟨r, hr, hvr⟩ := hv
  rw [filter_map_of_nodup _ _ (hnodup r hr)] at hvr
  cases hfind : List.find? (fun kv => kv.1 == a) r.cells with
  | none =>
    rw [hfind] at hvr
    simp at hvr
  | some kv =>
    rw [hfind] at hvr
    simp only [List.mem_singleton] at hvr
    refine ⟨r, hr, ?_⟩
    unfold cellGet
    rw [hfind, hvr]
    rfl

theorem trim_cellStr_of_none {r : GridRow} {a : String} (h : cellGet r a = none) :
    jsTrim (cellStr r a) = "" := by
  unfold cellStr
  rw [h]
  rfl

theorem trim_cellStr_of_some {r : GridRow} {a v : String} (h : cellGet r a = some v) :
    jsTrim (cellStr r a) = jsTrim v := by
  unfold cellStr
  rw [h]

/-- The merged row of a non-trivial group: its trimmed review-column value
stays inside `{"", group key}`, and it is blank only when every member's was
blank. -/
theorem merged_col_inv {rs : List GridRow} {m0 : GridRow} {a k : String}
    (hanr : reservedCols.contains a = false)
    (hnodup : ∀ r ∈ rs, (r.cells.map Prod.fst).Nodup)
    (hmem : ∀ r ∈ rs, jsTrim (cellStr r a) = "" ∨ jsTrim (cellStr r a) = k)
    (hd : jsTrim (cellStr m0 a) = "" ∨ jsTrim (cellStr m0 a) = k) :
    (jsTrim (cellStr (rs.foldl mergeRowInto m0) a) = "" ∨
      jsTrim (cellStr (rs.foldl mergeRowInto m0) a) = k) ∧
    (jsTrim (cellStr (rs.foldl mergeRowInto m0) a) = "" →
      ∀ r ∈ rs, jsTrim (cellStr r a) = "") := by
  have hvals : ∀ v ∈ rs.flatMap
      (fun r => (r.cells.filter (fun kv => kv.1 == a)).map Prod.snd),
      jsTrim v = "" ∨ jsTrim v = k := by
    intro v hv
    obtain ⟨r, hr, hget⟩ := mem_flat_vals hnodup hv
    have := hmem r hr
    rw [trim_cellStr_of_some hget] at this
    exact this
  have hfold := foldVS (a := a) (k := k)
    (rs.flatMap (fun r => (r.cells.filter (fun kv => kv.1 == a)).map Prod.snd))
    (cellGet m0 a) hanr hvals (by rw [← jsTrim_cellStr]; exact hd)
  rw [jsTrim_cellStr, groupFold_at]
  refine ⟨hfold.1, fun h => ?_⟩
  obtain ⟨hd0, hall⟩ := hfold.2 h
  intro r hr
  cases hget : cellGet r a with
  | none => exact trim_cellStr_of_none hget
  | some v =>
    rw [trim_cellStr_of_some hget]
    apply hall
    rw [List.mem_flatMap]
    refine ⟨r, hr, ?_⟩
    rw [filter_map_of_nodup _ _ (hnodup r hr)]
    unfold cellGet at hget
    cases hfind : List.find? (fun kv => kv.1 == a) r.cells with
    | none =>
      rw [hfind] at hget
      simp at hget
    | some kv =>
      rw [hfind] at hget
      have hget2 : kv.2 = v := by
        simpa using hget
      exact (show v ∈ [kv.2] by rw [hget2]; exact List.mem_singleton_self v)

/-- The merged row of a non-trivial group keeps the group key and recomputes
it as its target key. -/
theorem merged_target {a b k : String} {rs : List GridRow} {rep : GridRow}
    (hanr : reservedCols.contains a = false) (hbnr : reservedCols.contains b = false)
    (hrepmem : rep ∈ rs)
    (hfactsOf : ∀ r ∈ rs,
      (jsTrim (cellStr r a) = "" ∨ jsTrim (cellStr r a) = k) ∧
      ((jsTrim (cellStr r a) = "") →
        (jsTrim (cellStr r b) = "" ∨ jsTrim (cellStr r b) = k)) ∧
      hasSep k = false)
    (hnodup : ∀ r ∈ rs, (r.cells.map Prod.fst).Nodup) :
    (rs.foldl mergeRowInto
      { rep with integratedKey := k, status := ExistsStatus.bothMerged }).integratedKey = k ∧
    targetKeyOf a b (rs.foldl mergeRowInto
      { rep with integratedKey := k, status := ExistsStatus.bothMerged }) = k := by
  have hm0a : cellStr { rep with integratedKey := k, status := ExistsStatus.bothMerged } a =
      cellStr rep a := rfl
  have hm0b : cellStr { rep with integratedKey := k, status := ExistsStatus.bothMerged } b =
      cellStr rep b := rfl
  have hka := @merged_col_inv rs
    { rep with integratedKey := k, status := ExistsStatus.bothMerged }
    a k hanr hnodup (fun r hr => (hfactsOf r hr).1)
    (by rw [hm0a]; exact (hfactsOf rep hrepmem).1)
  have hkey : (rs.foldl mergeRowInto
      { rep with integratedKey := k, status := ExistsStatus.bothMerged }).integratedKey = k := by
    rw [groupFold_integratedKey]
  refine ⟨hkey, ?_⟩
  apply target_of_parts hkey hka.1
  · intro hma
    have hallA := hka.2 hma
    have hbvals : ∀ r ∈ rs, jsTrim (cellStr r b) = "" ∨ jsTrim (cellStr r b) = k :=
      fun r hr => (hfactsOf r hr).2.1 (hallA r hr)
    have hkb := @merged_col_inv rs
      { rep with integratedKey := k, status := ExistsStatus.bothMerged }
      b k hbnr hnodup hbvals
      (by rw [hm0b]; exact (hfactsOf rep hrepmem).2.1 (hallA rep hrepmem))
    exact hkb.1
  · exact (hfactsOf rep hrepmem).2.2

/-- Every row of a processed group has the group key as integrated key and
recomputes the group key as its target key. -/
theorem processGroup_target {a b k : String} {rs : List GridRow}
    (hanr : reservedCols.contains a = false) (hbnr : reservedCols.contains b = false)
    (hne : rs ≠ [])
    (hmembers : ∀ r ∈ rs, targetKeyOf a b r = k)
    (hsep : ∀ r ∈ rs, hasSep (jsTrim (cellStr r a)) = false ∧
      hasSep (jsTrim (cellStr r b)) = false)
    (hnodup : ∀ r ∈ rs, (r.cells.map Prod.fst).Nodup) :
    ∀ r' ∈ processGroup a b k rs,
      r'.integratedKey = k ∧ targetKeyOf a b r' = k := by
  have hfactsOf : ∀ r ∈ rs,
      (jsTrim (cellStr r a) = "" ∨ jsTrim (cellStr r a) = k) ∧
      ((jsTrim (cellStr r a) = "") →
        (jsTrim (cellStr r b) = "" ∨ jsTrim (cellStr r b) = k)) ∧
      hasSep k = false :=
    fun r hr => member_facts (hsep r hr).1 (hsep r hr).2 (hmembers r hr)
  intro r' hr'
  match rs, hne, hmembers, hsep, hnodup, hfactsOf, hr' with
  | [row], _, hmembers, hsep, hnodup, hfactsOf, hr' =>
    have hfacts := hfactsOf row (by simp)
    simp only [processGroup] at hr'
    split_ifs at hr' with hcond
    · simp only [List.mem_singleton] at hr'
      subst hr'
      refine ⟨rfl, target_of_parts rfl hfacts.1 hfacts.2.1 hfacts.2.2⟩
    · simp only [List.mem_singleton] at hr'
      subst hr'
      simp only [ne_eq, Bool.or_eq_true, decide_eq_true_eq, not_or, not_not] at hcond
      exact ⟨hcond.2, hmembers r' (by simp)⟩
  | r1 :: r2 :: rest, _, hmembers, hsep, hnodup, hfactsOf, hr' =>
    simp only [processGroup, List.mem_singleton] at hr'
    subst hr'
    cases hfind : List.find? isBothish (r1 :: r2 :: rest) with
    | some rr =>
      exact merged_target hanr hbnr (List.mem_of_find?_eq_some hfind) hfactsOf hnodup
    | none =>
      exact merged_target hanr hbnr (List.mem_cons_self r1 (r2 :: rest)) hfactsOf hnodup

theorem reviewColsOf_shape (mappings : List MappingInfo) (pk : String) :
    ∃ x, reviewColsOf mappings pk = (x ++ "_기준검토", x ++ "_비교검토") := by
  unfold reviewColsOf
  cases List.find? (fun m => m.isPK) mappings with
  | none => exact ⟨pk, rfl⟩
  | some m => exact ⟨m.refColumn, rfl⟩

theorem applyRC_eq (mappings : List MappingInfo) (pk : String) (rows : List GridRow) :
    applyReviewCompensation mappings pk rows =
      if (rows.filter (fun r => hasReviewVal (reviewColsOf mappings pk).1
          (reviewColsOf mappings pk).2 r)).isEmpty then rows
      else (buildGroups (reviewColsOf mappings pk).1 (reviewColsOf mappings pk).2
          rows).flatMap (fun g => processGroup (reviewColsOf mappings pk).1
            (reviewColsOf mappings pk).2 g.1 g.2) := rfl

theorem groupInsert_fresh (gs : List (String × List GridRow)) (k : String) (r : GridRow)
    (h : k ∉ gs.map Prod.fst) : groupInsert gs k r = gs ++ [(k, [r])] := by
  induction gs with
  | nil => rfl
  | cons g rest ih =>
    obtain ⟨k2, rs⟩ := g
    simp only [List.map_cons, List.mem_cons, not_or] at h
    have hb : (k2 == k) = false := beq_false_of_ne (fun hc => h.1 hc.symm)
    simp only [groupInsert, hb, Bool.false_eq_true, if_false, List.cons_append]
    rw [ih h.2]

theorem buildGroups_pairwise (a b : String) (rows : List GridRow) :
    ∀ gs : List (String × List GridRow),
      (∀ r ∈ rows, targetKeyOf a b r ∉ gs.map Prod.fst) →
      rows.Pairwise (fun r s => targetKeyOf a b r ≠ targetKeyOf a b s) →
      rows.foldl (fun acc r => groupInsert acc (targetKeyOf a b r) r) gs =
        gs ++ rows.map (fun r => (targetKeyOf a b r, [r])) := by
  induction rows with
  | nil => intro gs _ _; simp
  | cons r rest ih =>
    intro gs hfresh hdist
    simp only [List.foldl_cons, List.map_cons]
    rw [groupInsert_fresh gs _ r (hfresh r (List.mem_cons_self r rest))]
    rw [List.pairwise_cons] at hdist
    rw [ih (gs ++ [(targetKeyOf a b r, [r])]) ?_ hdist.2]
    · simp
    · intro s hs
      simp only [List.map_append, List.mem_append, not_or]
      refine ⟨hfresh s (List.mem_cons_of_mem r hs), ?_⟩
      simp only [List.map_cons, List.map_nil, List.mem_singleton]
      exact fun hc => (hdist.1 s hs) hc.symm

theorem processGroup_single_id {a b : String} {r : GridRow}
    (h : targetKeyOf a b r = r.integratedKey) :
    processGroup a b (targetKeyOf a b r) [r] = [r] := by
  simp only [processGroup]
  split_ifs with hcond
  · rw [h]
  · rfl

theorem flatMap_singleton_groups (a b : String) (rows : List GridRow)
    (h : ∀ r ∈ rows, targetKeyOf a b r = r.integratedKey) :
    ((rows.map (fun r => (targetKeyOf a b r, [r]))).flatMap
      (fun g => processGroup a b g.1 g.2)) = rows := by
  induction rows with
  | nil => rfl
  | cons r rest ih =>
    simp only [List.map_cons, List.flatMap_cons]
    rw [processGroup_single_id (h r (List.mem_cons_self r rest))]
    rw [ih (fun s hs => h s (List.mem_cons_of_mem r hs))]
    rfl

theorem flatMap_processGroup_keys (a b : String) (gs : List (String × List GridRow))
    (hne : ∀ g ∈ gs, g.2 ≠ []) :
    (gs.flatMap (fun g => processGroup a b g.1 g.2)).map (fun r => r.integratedKey) =
      gs.map Prod.fst := by
  induction gs with
  | nil => rfl
  | cons g rest ih =>
    simp only [List.flatMap_cons, List.map_append, List.map_cons]
    rw [processGroup_keys (hne g (List.mem_cons_self g rest)),
      ih (fun g2 hg2 => hne g2 (List.mem_cons_of_mem g hg2))]
    rfl

theorem buildGroups_eq_map_of_pairwise (a b : String) (rows : List GridRow)
    (hpair : rows.Pairwise (fun r s => targetKeyOf a b r ≠ targetKeyOf a b s)) :
    buildGroups a b rows = rows.map (fun r => (targetKeyOf a b r, [r])) := by
  unfold buildGroups
  rw [buildGroups_pairwise a b rows [] (by simp) hpair]
  simp

/-- Facts about the output row set of a non-trivial run of
`applyReviewCompensation`: each output row's integrated key equals its
recomputed target key, and the keys are pairwise distinct. -/
theorem applyRC_out_facts (a b : String) (rows : List GridRow)
    (hanr : reservedCols.contains a = false) (hbnr : reservedCols.contains b = false)
    (hsep : ∀ r ∈ rows, hasSep (jsTrim (cellStr r a)) = false ∧
      hasSep (jsTrim (cellStr r b)) = false)
    (hnodup : ∀ r ∈ rows, (r.cells.map Prod.fst).Nodup) :
    (∀ r' ∈ (buildGroups a b rows).flatMap (fun g => processGroup a b g.1 g.2),
      r'.integratedKey = targetKeyOf a b r') ∧
    (((buildGroups a b rows).flatMap (fun g => processGroup a b g.1 g.2)).map
      (fun r => r.integratedKey)).Nodup := by
  constructor
  · intro r' hr'
    rw [List.mem_flatMap] at hr'
    obtain ⟨g, hg, hr'g⟩ := hr'
    obtain ⟨k, rs⟩ := g
    have hrs : rs = rows.filter (fun r => targetKeyOf a b r == k) :=
      buildGroups_mem_eq_lookup a b rows hg
    have hne : rs ≠ [] := by
      intro h0
      rw [h0] at hr'g
      simp [processGroup] at hr'g
    have hmembers : ∀ r ∈ rs, targetKeyOf a b r = k := by
      intro r hr
      rw [hrs] at hr
      exact eq_of_beq (List.mem_filter.mp hr).2
    have hsub : ∀ r ∈ rs, r ∈ rows := by
      intro r hr
      rw [hrs] at hr
      exact List.mem_of_mem_filter hr
    have hpt := processGroup_target hanr hbnr hne hmembers
      (fun r hr => hsep r (hsub r hr)) (fun r hr => hnodup r (hsub r hr)) r' hr'g
    rw [hpt.1, hpt.2]
  · have hgne : ∀ g ∈ buildGroups a b rows, g.2 ≠ [] := by
      intro g hg
      obtain ⟨k, rs⟩ := g
      have hrs : rs = rows.filter (fun r => targetKeyOf a b r == k) :=
        buildGroups_mem_eq_lookup a b rows hg
      have hk : k ∈ (buildGroups a b rows).map Prod.fst := by
        exact List.mem_map_of_mem Prod.fst hg
      obtain ⟨r, hr, htr⟩ := buildGroups_keys_sub a b rows k hk
      intro h0
      have hmem : r ∈ rs := by
        rw [hrs]
        exact List.mem_filter.mpr ⟨hr, beq_of_eq htr⟩
      have h0' : rs = [] := h0
      rw [h0'] at hmem
      simp at hmem
    rw [flatMap_processGroup_keys a b _ hgne]
    exact buildGroups_keys_nodup a b rows

set_option maxHeartbeats 400000 in
theorem createResultRow_integratedKey_ne (refRow compRow : Option RawRow)
    (st : ExistsStatus) (pk : String) (ms : List MappingInfo) :
    (createResultRow refRow compRow st pk ms).integratedKey ≠ "" := by
  simp only [createResultRow]
  exact getIntegratedKey_ne_empty _ _ _

theorem runGenKeys_length (ops : List (GenOp × ℕ)) (counter : ℕ) :
    (runGenKeys ops counter).length = ops.length := by
  induction ops generalizing counter with
  | nil => rfl
  | cons op rest ih =>
    obtain ⟨g, now⟩ := op
    cases g with
    | check => simp [runGenKeys, ih]
    | checklist => simp [runGenKeys, ih]

/-! ### Value-level view of the merge (for C5) -/

theorem trimOptStr_eq_trim_optCellStr (o : Option String) :
    trimOptStr o = jsTrim (optCellStr o) := by
  cases o <;> rfl

/-- `mergeCellInto`'s value step, viewed through `String(x || '')`, is the
spec-level two-value merge. -/
theorem mergeValStep_spec (c : String) (dOpt : Option String) (v : String) :
    optCellStr (mergeValStep c dOpt v) = mergeTwoSpec c (optCellStr dOpt) v := by
  have hd := trimOptStr_eq_trim_optCellStr dOpt
  simp only [mergeValStep, mergeTwoSpec, hd]
  split_ifs <;> rfl

theorem optCellStr_foldl (c : String) (vs : List String) (d : Option String) :
    optCellStr (vs.foldl (mergeValStep c) d) =
      vs.foldl (mergeTwoSpec c) (optCellStr d) := by
  induction vs generalizing d with
  | nil => rfl
  | cons v rest ih =>
    simp only [List.foldl_cons]
    rw [ih, mergeValStep_spec]

/-- A blank source value never changes the destination. -/
theorem mergeTwoSpec_blank_src (c d v : String) (h : jsTrim v = "") :
    mergeTwoSpec c d v = d := by
  by_cases h1 : reservedCols.contains c = true
  · simp only [mergeTwoSpec, if_pos h1]
  · have h2 : (jsTrim v == "") = true := by rw [h]; rfl
    simp only [mergeTwoSpec]
    rw [if_neg h1, if_pos h2]

/-- Folding the spec-level merge over a row list's raw cell values (one per
member holding the column) equals folding it over every member's
`String(cell || '')`, absent cells contributing a blank no-op step. -/
theorem foldTwoSpec_flat_eq_map (c : String) (rs : List GridRow) (d : String)
    (hnodup : ∀ r ∈ rs, (r.cells.map Prod.fst).Nodup) :
    (rs.flatMap (fun r => (r.cells.filter (fun kv => kv.1 == c)).map Prod.snd)).foldl
        (mergeTwoSpec c) d =
      (rs.map (fun r => cellStr r c)).foldl (mergeTwoSpec c) d := by
  induction rs generalizing d with
  | nil => rfl
  | cons r rest ih =>
    simp only [List.flatMap_cons, List.map_cons, List.foldl_append, List.foldl_cons]
    rw [filter_map_of_nodup _ _ (hnodup r (List.mem_cons_self r rest))]
    cases hfind : List.find? (fun kv => kv.1 == c) r.cells with
    | none =>
      have hc : cellStr r c = "" := by
        unfold cellStr cellGet
        rw [hfind]
        rfl
      rw [hc, mergeTwoSpec_blank_src c d "" rfl]
      exact ih d (fun s hs => hnodup s (List.mem_cons_of_mem r hs))
    | some kv =>
      have hc : cellStr r c = kv.2 := by
        unfold cellStr cellGet
        rw [hfind]
        rfl
      rw [hc]
      exact ih _ (fun s hs => hnodup s (List.mem_cons_of_mem r hs))

theorem groupFold_standardPK (rs : List GridRow) (m : GridRow) :
    (rs.foldl mergeRowInto m).standardPK = m.standardPK := by
  induction rs generalizing m with
  | nil => rfl
  | cons r rest ih =>
    simp only [List.foldl_cons]
    rw [ih, mergeRowInto_standardPK]

theorem groupFold_standardSK (rs : List GridRow) (m : GridRow) :
    (rs.foldl mergeRowInto m).standardSK = m.standardSK := by
  induction rs generalizing m with
  | nil => rfl
  | cons r rest ih =>
    simp only [List.foldl_cons]
    rw [ih, mergeRowInto_standardSK]

/-- Every group built by `buildGroups` is non-empty. -/
theorem buildGroups_groups_ne (a b : String) (rows : List GridRow) :
    ∀ g ∈ buildGroups a b rows, g.2 ≠ [] := by
  intro g hg
  obtain ⟨k, rs⟩ := g
  have hrs : rs = rows.filter (fun r => targetKeyOf a b r == k) :=
    buildGroups_mem_eq_lookup a b rows hg
  have hk : k ∈ (buildGroups a b rows).map Prod.fst := List.mem_map_of_mem Prod.fst hg
  obtain ⟨r, hr, htr⟩ := buildGroups_keys_sub a b rows k hk
  intro h0
  have hmem : r ∈ rs := by
    rw [hrs]
    exact List.mem_filter.mpr ⟨hr, beq_of_eq htr⟩
  have h0' : rs = [] := h0
  rw [h0'] at hmem
  simp at hmem

/-- A non-empty target-key fibre of the row set is one of the built groups. -/
theorem buildGroups_mem_of_ne (a b : String) (rows : List GridRow) (k : String)
    (h : rows.filter (fun r => targetKeyOf a b r == k) ≠ []) :
    (k, rows.filter (fun r => targetKeyOf a b r == k)) ∈ buildGroups a b rows := by
  have hl := buildGroups_lookup a b rows k
  unfold groupLookup at hl
  cases hfind : List.find? (fun g => g.1 == k) (buildGroups a b rows) with
  | none =>
    rw [hfind] at hl
    exact absurd hl.symm h
  | some g =>
    rw [hfind] at hl
    have hp := List.find?_some hfind
    have hk : g.1 = k := eq_of_beq hp
    have hm := List.mem_of_find?_eq_some hfind
    have hgeq : (k, rows.filter (fun r => targetKeyOf a b r == k)) = g := by
      obtain ⟨k2, rs2⟩ := g
      simp only at hk hl
      rw [hk, hl]
    rw [hgeq]
    exact hm

/-! ### Matching-phase invariants (for C1) -/

theorem bool_eq_false {x : Bool} (h : ¬(x = true)) : x = false := by
  cases x
  · rfl
  · exact absurd rfl h

theorem contains_append_one (l : List ℕ) (x i : ℕ) :
    (l ++ [x]).contains i = (l.contains i || i == x) := by
  induction l with
  | nil =>
    simp only [List.nil_append, List.contains_cons, List.contains_nil, Bool.false_or,
      Bool.or_false]
  | cons y t ih =>
    simp only [List.cons_append, List.contains_cons] at *
    rw [ih, Bool.or_assoc]

/-- The principle-1 `findIndex` only returns not-yet-matched comparison
indices. -/
theorem findCompIdx_fresh {comps : List RawRow} {cm : List ℕ} {cpk refPK : String}
    {j : ℕ} (h : findCompIdx comps cm cpk refPK = some j) : cm.contains j = false := by
  unfold findCompIdx at h
  rw [Option.map_eq_some'] at h
  obtain ⟨q, hq1, hq2⟩ := h
  have hq := List.find?_some hq1
  simp only [Bool.and_eq_true] at hq
  have h1 := hq.1
  rw [← hq2]
  cases hcc : cm.contains q.1
  · rfl
  · rw [hcc] at h1
    simp at h1

/-- The principle-2 `findIndex` only returns not-yet-matched comparison
indices. -/
theorem findCompIdxSK_fresh {comps : List RawRow} {cm : List ℕ} {cskc refSK : String}
    {j : ℕ} (h : findCompIdxSK comps cm cskc refSK = some j) : cm.contains j = false := by
  unfold findCompIdxSK at h
  rw [Option.map_eq_some'] at h
  obtain ⟨q, hq1, hq2⟩ := h
  have hq := List.find?_some hq1
  simp only [Bool.and_eq_true] at hq
  have h1 := hq.1
  rw [← hq2]
  cases hcc : cm.contains q.1
  · rfl
  · rw [hcc] at h1
    simp at h1

/-- Principle 1 preserves the per-index trace counts (`1` iff matched), the
comparison counts, and the all-`Both` shape of the trace, provided the
processed enumerated indices are fresh and distinct. -/
theorem phase1_inv (comps : List RawRow) (pk cpk : String) (l : List (ℕ × RawRow)) :
    ∀ st : MatchState,
    (∀ p ∈ l, st.refMatched.contains p.1 = false) →
    ((l.map Prod.fst).Nodup) →
    (∀ i : ℕ, st.trace.countP (fun t => t.refIdx == some i) =
      if st.refMatched.contains i then 1 else 0) →
    (∀ j : ℕ, st.trace.countP (fun t => t.compIdx == some j) =
      if st.compMatched.contains j then 1 else 0) →
    (∀ t ∈ st.trace, t.status = ExistsStatus.both) →
    (∀ i : ℕ, (phase1Go comps pk cpk l st).trace.countP (fun t => t.refIdx == some i) =
      if (phase1Go comps pk cpk l st).refMatched.contains i then 1 else 0) ∧
    (∀ j : ℕ, (phase1Go comps pk cpk l st).trace.countP (fun t => t.compIdx == some j) =
      if (phase1Go comps pk cpk l st).compMatched.contains j then 1 else 0) ∧
    (∀ t ∈ (phase1Go comps pk cpk l st).trace, t.status = ExistsStatus.both) := by
  induction l with
  | nil =>
    intro st _ _ hr hc hb
    exact ⟨hr, hc, hb⟩
  | cons p rest ih =>
    intro st hfresh hdist hr hc hb
    obtain ⟨refIdx, refRow⟩ := p
    simp only [List.map_cons, List.nodup_cons] at hdist
    obtain ⟨hnotin, hdist2⟩ := hdist
    have hfresh0 : st.refMatched.contains refIdx = false :=
      hfresh (refIdx, refRow) (List.mem_cons_self _ _)
    have hfreshrest : ∀ q ∈ rest, st.refMatched.contains q.1 = false :=
      fun q hq => hfresh q (List.mem_cons_of_mem _ hq)
    simp only [phase1Go]
    by_cases hpk : (getValueWithFallback (some refRow) pk == "") = true
    · rw [if_pos hpk]
      exact ih st hfreshrest hdist2 hr hc hb
    · rw [if_neg hpk]
      cases hfind : findCompIdx comps st.compMatched cpk
          (keyPart (getValueWithFallback (some refRow) pk)) with
      | none =>
        simp only [hfind]
        exact ih st hfreshrest hdist2 hr hc hb
      | some compIdx =>
        simp only [hfind]
        have hcfresh : st.compMatched.contains compIdx = false := findCompIdx_fresh hfind
        have hF : ∀ q ∈ rest, (st.refMatched ++ [refIdx]).contains q.1 = false := by
          intro q hq
          have h1 := hfreshrest q hq
          have h2 : (q.1 == refIdx) = false := by
            have hne : q.1 ≠ refIdx :=
              fun hcq => hnotin (hcq ▸ List.mem_map_of_mem Prod.fst hq)
            simp [hne]
          rw [contains_append_one, h1, h2]
          rfl
        have hR : ∀ i : ℕ, (st.trace ++
            [(⟨some refIdx, some compIdx, ExistsStatus.both, false⟩ : TraceRow)]).countP
              (fun t => t.refIdx == some i) =
            if (st.refMatched ++ [refIdx]).contains i then 1 else 0 := by
          intro i
          rw [List.countP_append, hr i, contains_append_one]
          by_cases hi : i = refIdx
          · subst hi
            rw [hfresh0]
            simp
          · have hx1 : ((some refIdx == some i) : Bool) = false := by simp [Ne.symm hi]
            have hx2 : (i == refIdx) = false := by simp [hi]
            simp [List.countP_cons, hx1, hx2]
        have hC : ∀ j : ℕ, (st.trace ++
            [(⟨some refIdx, some compIdx, ExistsStatus.both, false⟩ : TraceRow)]).countP
              (fun t => t.compIdx == some j) =
            if (st.compMatched ++ [compIdx]).contains j then 1 else 0 := by
          intro j
          rw [List.countP_append, hc j, contains_append_one]
          by_cases hj : j = compIdx
          · subst hj
            rw [hcfresh]
            simp
          · have hx1 : ((some compIdx == some j) : Bool) = false := by simp [Ne.symm hj]
            have hx2 : (j == compIdx) = false := by simp [hj]
            simp [List.countP_cons, hx1, hx2]
        have hB : ∀ t ∈ st.trace ++
            [(⟨some refIdx, some compIdx, ExistsStatus.both, false⟩ : TraceRow)],
            t.status = ExistsStatus.both := by
          intro t ht
          rcases List.mem_append.mp ht with h | h
          · exact hb t h
          · simp only [List.mem_singleton] at h
            rw [h]
        exact ih ⟨st.refMatched ++ [refIdx], st.compMatched ++ [compIdx],
          st.trace ++ [⟨some refIdx, some compIdx, ExistsStatus.both, false⟩]⟩
          hF hdist2 hR hC hB

/-- Principle 2 preserves the per-index trace counts and the all-`Both`
shape (its own `refMatched` check provides the freshness). -/
theorem phase2_inv (comps : List RawRow) (skc cskc : String) (l : List (ℕ × RawRow)) :
    ∀ st : MatchState,
    (∀ i : ℕ, st.trace.countP (fun t => t.refIdx == some i) =
      if st.refMatched.contains i then 1 else 0) →
    (∀ j : ℕ, st.trace.countP (fun t => t.compIdx == some j) =
      if st.compMatched.contains j then 1 else 0) →
    (∀ t ∈ st.trace, t.status = ExistsStatus.both) →
    (∀ i : ℕ, (phase2Go comps skc cskc l st).trace.countP (fun t => t.refIdx == some i) =
      if (phase2Go comps skc cskc l st).refMatched.contains i then 1 else 0) ∧
    (∀ j : ℕ, (phase2Go comps skc cskc l st).trace.countP (fun t => t.compIdx == some j) =
      if (phase2Go comps skc cskc l st).compMatched.contains j then 1 else 0) ∧
    (∀ t ∈ (phase2Go comps skc cskc l st).trace, t.status = ExistsStatus.both) := by
  induction l with
  | nil =>
    intro st hr hc hb
    exact ⟨hr, hc, hb⟩
  | cons p rest ih =>
    intro st hr hc hb
    obtain ⟨refIdx, refRow⟩ := p
    simp only [phase2Go]
    by_cases hm : (st.refMatched.contains refIdx) = true
    · rw [if_pos hm]
      exact ih st hr hc hb
    · rw [if_neg hm]
      have hm0 : st.refMatched.contains refIdx = false := bool_eq_false hm
      by_cases hsk : (getValueWithFallback (some refRow) skc == "") = true
      · rw [if_pos hsk]
        exact ih st hr hc hb
      · rw [if_neg hsk]
        cases hfind : findCompIdxSK comps st.compMatched cskc
            (getValueWithFallback (some refRow) skc) with
        | none =>
          simp only [hfind]
          exact ih st hr hc hb
        | some compIdx =>
          simp only [hfind]
          have hcfresh : st.compMatched.contains compIdx = false := findCompIdxSK_fresh hfind
          have hR : ∀ i : ℕ, (st.trace ++
              [(⟨some refIdx, some compIdx, ExistsStatus.both, true⟩ : TraceRow)]).countP
                (fun t => t.refIdx == some i) =
              if (st.refMatched ++ [refIdx]).contains i then 1 else 0 := by
            intro i
            rw [List.countP_append, hr i, contains_append_one]
            by_cases hi : i = refIdx
            · subst hi
              rw [hm0]
              simp
            · have hx1 : ((some refIdx == some i) : Bool) = false := by simp [Ne.symm hi]
              have hx2 : (i == refIdx) = false := by simp [hi]
              simp [List.countP_cons, hx1, hx2]
          have hC : ∀ j : ℕ, (st.trace ++
              [(⟨some refIdx, some compIdx, ExistsStatus.both, true⟩ : TraceRow)]).countP
                (fun t => t.compIdx == some j) =
              if (st.compMatched ++ [compIdx]).contains j then 1 else 0 := by
            intro j
            rw [List.countP_append, hc j, contains_append_one]
            by_cases hj : j = compIdx
            · subst hj
              rw [hcfresh]
              simp
            · have hx1 : ((some compIdx == some j) : Bool) = false := by simp [Ne.symm hj]
              have hx2 : (j == compIdx) = false := by simp [hj]
              simp [List.countP_cons, hx1, hx2]
          have hB : ∀ t ∈ st.trace ++
              [(⟨some refIdx, some compIdx, ExistsStatus.both, true⟩ : TraceRow)],
              t.status = ExistsStatus.both := by
            intro t ht
            rcases List.mem_append.mp ht with h | h
            · exact hb t h
            · simp only [List.mem_singleton] at h
              rw [h]
          exact ih ⟨st.refMatched ++ [refIdx], st.compMatched ++ [compIdx],
            st.trace ++ [⟨some refIdx, some compIdx, ExistsStatus.both, true⟩]⟩
            hR hC hB

/-- The optional-SK step of `compareDatasets` (skip or run principle 2)
preserves the invariants. -/
theorem phaseOpt2_inv (comps : List RawRow) (skc cskc : Option String)
    (l : List (ℕ × RawRow)) (st : MatchState) (st2 : MatchState)
    (hst2 : st2 = (match skc, cskc with
      | some sk, some compSK =>
        if sk ≠ "" && compSK ≠ "" then phase2Go comps sk compSK l st else st
      | _, _ => st))
    (hr : ∀ i : ℕ, st.trace.countP (fun t => t.refIdx == some i) =
      if st.refMatched.contains i then 1 else 0)
    (hc : ∀ j : ℕ, st.trace.countP (fun t => t.compIdx == some j) =
      if st.compMatched.contains j then 1 else 0)
    (hb : ∀ t ∈ st.trace, t.status = ExistsStatus.both) :
    (∀ i : ℕ, st2.trace.countP (fun t => t.refIdx == some i) =
      if st2.refMatched.contains i then 1 else 0) ∧
    (∀ j : ℕ, st2.trace.countP (fun t => t.compIdx == some j) =
      if st2.compMatched.contains j then 1 else 0) ∧
    (∀ t ∈ st2.trace, t.status = ExistsStatus.both) := by
  cases skc with
  | none =>
    have h2 : st2 = st := hst2
    subst h2
    exact ⟨hr, hc, hb⟩
  | some sk =>
    cases cskc with
    | none =>
      have h2 : st2 = st := hst2
      subst h2
      exact ⟨hr, hc, hb⟩
    | some compSK =>
      have h2 : st2 = if sk ≠ "" && compSK ≠ "" then phase2Go comps sk compSK l st
          else st := hst2
      by_cases hif : (sk ≠ "" && compSK ≠ "") = true
      · rw [if_pos hif] at h2
        subst h2
        exact phase2_inv comps sk compSK l st hr hc hb
      · rw [if_neg hif] at h2
        subst h2
        exact ⟨hr, hc, hb⟩

/-- Principle 3 in closed form: the matching state is untouched and one
`Only Ref` row is appended for each unmatched reference index, in order. -/
theorem phase3_eq (l : List (ℕ × RawRow)) : ∀ st : MatchState,
    phase3Go l st = ⟨st.refMatched, st.compMatched,
      st.trace ++ (l.filter (fun p => !st.refMatched.contains p.1)).map
        (fun p => ⟨some p.1, none, ExistsStatus.onlyRef, false⟩)⟩ := by
  induction l with
  | nil =>
    intro st
    simp [phase3Go]
  | cons p rest ih =>
    intro st
    obtain ⟨idx, row⟩ := p
    simp only [phase3Go]
    by_cases h : (st.refMatched.contains idx) = true
    · rw [if_pos h, ih st]
      have hmem : idx ∈ st.refMatched := by simpa using h
      simp [List.filter_cons, hmem]
    · have h0 : st.refMatched.contains idx = false := bool_eq_false h
      rw [if_neg h, ih]
      have hmem0 : idx ∉ st.refMatched := by simpa using h0
      simp [List.filter_cons, hmem0]

/-- Principle 4 in closed form: one `Only Comp` row is appended for each
unmatched comparison index, in order. -/
theorem phase4_eq (l : List (ℕ × RawRow)) : ∀ st : MatchState,
    phase4Go l st = ⟨st.refMatched, st.compMatched,
      st.trace ++ (l.filter (fun p => !st.compMatched.contains p.1)).map
        (fun p => ⟨none, some p.1, ExistsStatus.onlyComp, false⟩)⟩ := by
  induction l with
  | nil =>
    intro st
    simp [phase4Go]
  | cons p rest ih =>
    intro st
    obtain ⟨idx, row⟩ := p
    simp only [phase4Go]
    by_cases h : (st.compMatched.contains idx) = true
    · rw [if_pos h, ih st]
      have hmem : idx ∈ st.compMatched := by simpa using h
      simp [List.filter_cons, hmem]
    · have h0 : st.compMatched.contains idx = false := bool_eq_false h
      rw [if_neg h, ih]
      have hmem0 : idx ∉ st.compMatched := by simpa using h0
      simp [List.filter_cons, hmem0]

/-- Reference count over the principle-3 block: `1` for an unmatched index
occurring in the (duplicate-free) enumerated list. -/
theorem count3_ref_one (l : List (ℕ × RawRow)) (c : List ℕ) (i : ℕ)
    (hnd : (l.map Prod.fst).Nodup) (hc : c.contains i = false)
    (hm : i ∈ l.map Prod.fst) :
    ((l.filter (fun p => !c.contains p.1)).map
        (fun p => (⟨some p.1, none, ExistsStatus.onlyRef, false⟩ : TraceRow))).countP
      (fun t => t.refIdx == some i) = 1 := by
  rw [List.countP_map, List.countP_filter]
  have hcg : l.countP (fun p =>
      ((fun t => t.refIdx == some i) ∘
        (fun p => (⟨some p.1, none, ExistsStatus.onlyRef, false⟩ : TraceRow))) p &&
      !c.contains p.1) = l.countP (fun p => p.1 == i) := by
    apply List.countP_congr
    intro p hp
    constructor
    · intro h
      rw [Bool.and_eq_true] at h
      have h1 : p.1 = i := by simpa using h.1
      simp [h1]
    · intro h
      have h1 : p.1 = i := by simpa using h
      rw [Bool.and_eq_true]
      refine ⟨by simp [h1], ?_⟩
      rw [h1, hc]
      rfl
  rw [hcg]
  have h2 : l.countP (fun p => p.1 == i) = (l.map Prod.fst).countP (fun x => x == i) := by
    rw [List.countP_map]
    exact List.countP_congr (fun p hp => Iff.rfl)
  rw [h2]
  have hcnt := List.count_eq_one_of_mem hnd hm
  simpa [List.count] using hcnt

/-- Reference count over the principle-3 block: `0` for a matched index. -/
theorem count3_ref_zero (l : List (ℕ × RawRow)) (c : List ℕ) (i : ℕ)
    (hc : c.contains i = true) :
    ((l.filter (fun p => !c.contains p.1)).map
        (fun p => (⟨some p.1, none, ExistsStatus.onlyRef, false⟩ : TraceRow))).countP
      (fun t => t.refIdx == some i) = 0 := by
  apply List.countP_eq_zero.mpr
  intro t ht
  rw [List.mem_map] at ht
  obtain ⟨p, hp, hteq⟩ := ht
  subst hteq
  intro hpred
  have h1 : p.1 = i := by simpa using hpred
  have h2 := (List.mem_filter.mp hp).2
  rw [h1, hc] at h2
  simp at h2

/-- The principle-3 block never mentions comparison indices. -/
theorem count3_comp_zero (l : List (ℕ × RawRow)) (c : List ℕ) (j : ℕ) :
    ((l.filter (fun p => !c.contains p.1)).map
        (fun p => (⟨some p.1, none, ExistsStatus.onlyRef, false⟩ : TraceRow))).countP
      (fun t => t.compIdx == some j) = 0 := by
  apply List.countP_eq_zero.mpr
  intro t ht
  rw [List.mem_map] at ht
  obtain ⟨p, hp, hteq⟩ := ht
  subst hteq
  simp

/-- Comparison count over the principle-4 block: `1` for an unmatched index
occurring in the (duplicate-free) enumerated list. -/
theorem count4_comp_one (l : List (ℕ × RawRow)) (c : List ℕ) (j : ℕ)
    (hnd : (l.map Prod.fst).Nodup) (hc : c.contains j = false)
    (hm : j ∈ l.map Prod.fst) :
    ((l.filter (fun p => !c.contains p.1)).map
        (fun p => (⟨none, some p.1, ExistsStatus.onlyComp, false⟩ : TraceRow))).countP
      (fun t => t.compIdx == some j) = 1 := by
  rw [List.countP_map, List.countP_filter]
  have hcg : l.countP (fun p =>
      ((fun t => t.compIdx == some j) ∘
        (fun p => (⟨none, some p.1, ExistsStatus.onlyComp, false⟩ : TraceRow))) p &&
      !c.contains p.1) = l.countP (fun p => p.1 == j) := by
    apply List.countP_congr
    intro p hp
    constructor
    · intro h
      rw [Bool.and_eq_true] at h
      have h1 : p.1 = j := by simpa using h.1
      simp [h1]
    · intro h
      have h1 : p.1 = j := by simpa using h
      rw [Bool.and_eq_true]
      refine ⟨by simp [h1], ?_⟩
      rw [h1, hc]
      rfl
  rw [hcg]
  have h2 : l.countP (fun p => p.1 == j) = (l.map Prod.fst).countP (fun x => x == j) := by
    rw [List.countP_map]
    exact List.countP_congr (fun p hp => Iff.rfl)
  rw [h2]
  have hcnt := List.count_eq_one_of_mem hnd hm
  simpa [List.count] using hcnt

/-- Comparison count over the principle-4 block: `0` for a matched index. -/
theorem count4_comp_zero (l : List (ℕ × RawRow)) (c : List ℕ) (j : ℕ)
    (hc : c.contains j = true) :
    ((l.filter (fun p => !c.contains p.1)).map
        (fun p => (⟨none, some p.1, ExistsStatus.onlyComp, false⟩ : TraceRow))).countP
      (fun t => t.compIdx == some j) = 0 := by
  apply List.countP_eq_zero.mpr
  intro t ht
  rw [List.mem_map] at ht
  obtain ⟨p, hp, hteq⟩ := ht
  subst hteq
  intro hpred
  have h1 : p.1 = j := by simpa using hpred
  have h2 := (List.mem_filter.mp hp).2
  rw [h1, hc] at h2
  simp at h2

/-- The principle-4 block never mentions reference indices. -/
theorem count4_ref_zero (l : List (ℕ × RawRow)) (c : List ℕ) (i : ℕ) :
    ((l.filter (fun p => !c.contains p.1)).map
        (fun p => (⟨none, some p.1, ExistsStatus.onlyComp, false⟩ : TraceRow))).countP
      (fun t => t.refIdx == some i) = 0 := by
  apply List.countP_eq_zero.mpr
  intro t ht
  rw [List.mem_map] at ht
  obtain ⟨p, hp, hteq⟩ := ht
  subst hteq
  simp

set_option maxHeartbeats 400000 in
theorem createResultRow_status (refRow compRow : Option RawRow) (st : ExistsStatus)
    (pk : String) (ms : List MappingInfo) :
    (createResultRow refRow compRow st pk ms).status = st := by
  simp only [createResultRow]

/-! ### First-match characterization of principle 1 (for C3) -/

/-- `find?` returns the first satisfying element: it sits at a position all
of whose predecessors fail the predicate. -/
theorem find?_first {α : Type} (p : α → Bool) :
    ∀ (l : List α) (b : α), l.find? p = some b →
    ∃ k : ℕ, l[k]? = some b ∧ p b = true ∧
      ∀ m : ℕ, m < k → ∀ a, l[m]? = some a → p a = false := by
  intro l
  induction l with
  | nil =>
    intro b h
    simp at h
  | cons x t ih =>
    intro b h
    rw [List.find?_cons] at h
    cases hp : p x with
    | true =>
      simp only [hp] at h
      have hb : x = b := Option.some.inj h
      refine ⟨0, by rw [← hb]; simp, hb ▸ hp, ?_⟩
      intro m hm a ha
      exact absurd hm (Nat.not_lt_zero m)
    | false =>
      simp only [hp] at h
      obtain ⟨k, hk1, hk2, hk3⟩ := ih b h
      refine ⟨k + 1, by simpa using hk1, hk2, ?_⟩
      intro m hm a ha
      cases m with
      | zero =>
        have hax : x = a := by simpa using ha
        rw [← hax]
        exact hp
      | succ m2 =>
        rw [List.getElem?_cons_succ] at ha
        exact hk3 m2 (Nat.lt_of_succ_lt_succ hm) a ha

/-- Full characterization of the principle-1 `findIndex`: the returned index
holds an unmatched row with the right prefix, and every smaller index with
the right prefix is already matched. -/
theorem findCompIdx_spec {comps : List RawRow} {cm : List ℕ} {cpk refPK : String}
    {j : ℕ} (h : findCompIdx comps cm cpk refPK = some j) :
    ∃ cj, comps[j]? = some cj ∧ cm.contains j = false ∧
      keyPart (getValueWithFallback (some cj) cpk) = refPK ∧
      ∀ m, m < j → ∀ cm2, comps[m]? = some cm2 →
        keyPart (getValueWithFallback (some cm2) cpk) = refPK →
        cm.contains m = true := by
  unfold findCompIdx at h
  rw [Option.map_eq_some'] at h
  obtain ⟨q, hq1, hq2⟩ := h
  obtain ⟨k, hk1, hk2, hk3⟩ := find?_first _ comps.enum q hq1
  rw [List.getElem?_enum] at hk1
  cases hck : comps[k]? with
  | none =>
    rw [hck] at hk1
    simp at hk1
  | some a =>
    rw [hck] at hk1
    simp only [Option.map_some'] at hk1
    have hq : q = (k, a) := (Option.some.inj hk1).symm
    subst hq
    simp only at hq2
    subst hq2
    simp only [Bool.and_eq_true] at hk2
    have hfresh : cm.contains k = false := by
      cases hcc : cm.contains k
      · rfl
      · rw [hcc] at hk2
        simp at hk2
    have heq : keyPart (getValueWithFallback (some a) cpk) = refPK := eq_of_beq hk2.2
    refine ⟨a, hck, hfresh, heq, ?_⟩
    intro m hm cm2 hcm2 hkey
    have henum : (comps.enum)[m]? = some (m, cm2) := by
      rw [List.getElem?_enum, hcm2]
      rfl
    have hpred := hk3 m hm (m, cm2) henum
    cases hcc : cm.contains m
    · exfalso
      rw [hcc] at hpred
      simp only at hpred
      rw [beq_of_eq hkey] at hpred
      simp at hpred
    · rfl

/-- The principle-3 block contributes no principle-1 pair. -/
theorem pairs_only3 (l : List (ℕ × RawRow)) (c : List ℕ) :
    ((l.filter (fun p => !c.contains p.1)).map
      (fun p => (⟨some p.1, none, ExistsStatus.onlyRef, false⟩ : TraceRow))).filterMap
        pairFn = [] := by
  induction l with
  | nil => rfl
  | cons p rest ih =>
    rw [List.filter_cons]
    by_cases h : (!c.contains p.1) = true
    · rw [if_pos h]
      simp only [List.map_cons, List.filterMap_cons]
      exact ih
    · rw [if_neg h]
      exact ih

/-- The principle-4 block contributes no principle-1 pair. -/
theorem pairs_only4 (l : List (ℕ × RawRow)) (c : List ℕ) :
    ((l.filter (fun p => !c.contains p.1)).map
      (fun p => (⟨none, some p.1, ExistsStatus.onlyComp, false⟩ : TraceRow))).filterMap
        pairFn = [] := by
  induction l with
  | nil => rfl
  | cons p rest ih =>
    rw [List.filter_cons]
    by_cases h : (!c.contains p.1) = true
    · rw [if_pos h]
      simp only [List.map_cons, List.filterMap_cons]
      exact ih
    · rw [if_neg h]
      exact ih

/-- Principle 2 (SK rows carry `skMatch = true`) contributes no principle-1
pair. -/
theorem phase2_pairs (comps : List RawRow) (skc cskc : String) (l : List (ℕ × RawRow)) :
    ∀ st : MatchState,
    (phase2Go comps skc cskc l st).trace.filterMap pairFn =
      st.trace.filterMap pairFn := by
  induction l with
  | nil =>
    intro st
    rfl
  | cons p rest ih =>
    intro st
    obtain ⟨refIdx, refRow⟩ := p
    simp only [phase2Go]
    by_cases hm : (st.refMatched.contains refIdx) = true
    · rw [if_pos hm]
      exact ih st
    · rw [if_neg hm]
      by_cases hsk : (getValueWithFallback (some refRow) skc == "") = true
      · rw [if_pos hsk]
        exact ih st
      · rw [if_neg hsk]
        cases hfind : findCompIdxSK comps st.compMatched cskc
            (getValueWithFallback (some refRow) skc) with
        | none =>
          simp only [hfind]
          exact ih st
        | some compIdx =>
          simp only [hfind]
          rw [ih]
          show (st.trace ++
            [(⟨some refIdx, some compIdx, ExistsStatus.both, true⟩ : TraceRow)]).filterMap
              pairFn = st.trace.filterMap pairFn
          rw [List.filterMap_append]
          simp [pairFn]

/-- The optional-SK step contributes no principle-1 pair. -/
theorem phaseOpt2_pairs (comps : List RawRow) (skc cskc : Option String)
    (l : List (ℕ × RawRow)) (st : MatchState) (st2 : MatchState)
    (hst2 : st2 = (match skc, cskc with
      | some sk, some compSK =>
        if sk ≠ "" && compSK ≠ "" then phase2Go comps sk compSK l st else st
      | _, _ => st)) :
    st2.trace.filterMap pairFn = st.trace.filterMap pairFn := by
  cases skc with
  | none =>
    have h2 : st2 = st := hst2
    subst h2
    rfl
  | some sk =>
    cases cskc with
    | none =>
      have h2 : st2 = st := hst2
      subst h2
      rfl
    | some compSK =>
      have h2 : st2 = if sk ≠ "" && compSK ≠ "" then phase2Go comps sk compSK l st
          else st := hst2
      by_cases hif : (sk ≠ "" && compSK ≠ "") = true
      · rw [if_pos hif] at h2
        subst h2
        exact phase2_pairs comps sk compSK l st
      · rw [if_neg hif] at h2
        subst h2
        rfl

/-- The first-match-wins invariant of principle 1.  Given that the matched
comparison set mirrors the pair trace, the pending enumerated rows are the
rows of `fr` at ascending fresh indices, and the pairs recorded so far are
ascending, valid (existing rows, non-blank reference identity, equal
`'::'`-prefixes) and minimal (every smaller equal-prefix comparison index was
matched by an earlier pair), all of this still holds after principle 1, the
new pairs stem from the pending rows, and a pending reference row with a
non-blank identity that ends up unpaired has every equal-prefix comparison
index matched by a pair of an earlier reference row. -/
theorem phase1_pairs (comps : List RawRow) (pk cpk : String) (fr : List RawRow)
    (l : List (ℕ × RawRow)) :
    ∀ st : MatchState,
    st.compMatched = ((st.trace.filterMap pairFn).map Prod.snd) →
    (∀ p ∈ l, fr[p.1]? = some p.2) →
    List.Pairwise (fun p q : ℕ × RawRow => p.1 < q.1) l →
    (∀ pr ∈ st.trace.filterMap pairFn, ∀ p ∈ l, pr.1 < p.1) →
    List.Pairwise (fun a b : ℕ × ℕ => a.1 < b.1) (st.trace.filterMap pairFn) →
    (∀ pr ∈ st.trace.filterMap pairFn, ∃ ri ci, fr[pr.1]? = some ri ∧
      comps[pr.2]? = some ci ∧ getValueWithFallback (some ri) pk ≠ "" ∧
      keyPart (getValueWithFallback (some ci) cpk) =
        keyPart (getValueWithFallback (some ri) pk)) →
    (∀ pr ∈ st.trace.filterMap pairFn, ∀ ri, fr[pr.1]? = some ri →
      ∀ m, m < pr.2 → ∀ ci, comps[m]? = some ci →
      keyPart (getValueWithFallback (some ci) cpk) =
        keyPart (getValueWithFallback (some ri) pk) →
      m ∈ (((st.trace.filterMap pairFn).filter
        (fun q => q.1 < pr.1)).map Prod.snd)) →
    ((phase1Go comps pk cpk l st).compMatched =
      (((phase1Go comps pk cpk l st).trace.filterMap pairFn).map Prod.snd)) ∧
    (∃ newp, (phase1Go comps pk cpk l st).trace.filterMap pairFn =
      st.trace.filterMap pairFn ++ newp ∧ ∀ pr ∈ newp, ∃ p ∈ l, pr.1 = p.1) ∧
    List.Pairwise (fun a b : ℕ × ℕ => a.1 < b.1)
      ((phase1Go comps pk cpk l st).trace.filterMap pairFn) ∧
    (∀ pr ∈ (phase1Go comps pk cpk l st).trace.filterMap pairFn, ∃ ri ci,
      fr[pr.1]? = some ri ∧ comps[pr.2]? = some ci ∧
      getValueWithFallback (some ri) pk ≠ "" ∧
      keyPart (getValueWithFallback (some ci) cpk) =
        keyPart (getValueWithFallback (some ri) pk)) ∧
    (∀ pr ∈ (phase1Go comps pk cpk l st).trace.filterMap pairFn, ∀ ri,
      fr[pr.1]? = some ri → ∀ m, m < pr.2 → ∀ ci, comps[m]? = some ci →
      keyPart (getValueWithFallback (some ci) cpk) =
        keyPart (getValueWithFallback (some ri) pk) →
      m ∈ ((((phase1Go comps pk cpk l st).trace.filterMap pairFn).filter
        (fun q => q.1 < pr.1)).map Prod.snd)) ∧
    (∀ p ∈ l, getValueWithFallback (some p.2) pk ≠ "" →
      p.1 ∉ (((phase1Go comps pk cpk l st).trace.filterMap pairFn).map Prod.fst) →
      ∀ m ci, comps[m]? = some ci →
      keyPart (getValueWithFallback (some ci) cpk) =
        keyPart (getValueWithFallback (some p.2) pk) →
      m ∈ ((((phase1Go comps pk cpk l st).trace.filterMap pairFn).filter
        (fun q => q.1 < p.1)).map Prod.snd)) := by
  induction l with
  | nil =>
    intro st hcm hl hord hbound hpw hvalid hmin
    refine ⟨hcm, ⟨[], (List.append_nil _).symm, ?_⟩, hpw, hvalid, hmin, ?_⟩
    · intro pr hpr
      simp at hpr
    · intro p hp
      simp at hp
  | cons hd rest ih =>
    intro st hcm hl hord hbound hpw hvalid hmin
    obtain ⟨idx, row⟩ := hd
    have hlhead : fr[idx]? = some row := hl (idx, row) (List.mem_cons_self _ _)
    have hl2 : ∀ p ∈ rest, fr[p.1]? = some p.2 :=
      fun p hp => hl p (List.mem_cons_of_mem _ hp)
    rw [List.pairwise_cons] at hord
    obtain ⟨hlt, hord2⟩ := hord
    have hbound2r : ∀ pr ∈ st.trace.filterMap pairFn, ∀ p ∈ rest, pr.1 < p.1 :=
      fun pr hpr p hp => hbound pr hpr p (List.mem_cons_of_mem _ hp)
    have hfilterS : (st.trace.filterMap pairFn).filter (fun q => q.1 < idx) =
        st.trace.filterMap pairFn :=
      List.filter_eq_self.mpr (fun q hq =>
        decide_eq_true (hbound q hq (idx, row) (List.mem_cons_self _ _)))
    simp only [phase1Go]
    by_cases hpk : (getValueWithFallback (some row) pk == "") = true
    · rw [if_pos hpk]
      obtain ⟨k1, k2, k3, k4, k5, k6⟩ := ih st hcm hl2 hord2 hbound2r hpw hvalid hmin
      refine ⟨k1, ?_, k3, k4, k5, ?_⟩
      · obtain ⟨newp, hnp1, hnp2⟩ := k2
        refine ⟨newp, hnp1, ?_⟩
        intro pr hpr
        obtain ⟨p, hp, he⟩ := hnp2 pr hpr
        exact ⟨p, List.mem_cons_of_mem _ hp, he⟩
      · intro p hp hne hnot
        rcases List.mem_cons.mp hp with he | hp2
        · subst he
          exact absurd (eq_of_beq hpk) hne
        · exact k6 p hp2 hne hnot
    · rw [if_neg hpk]
      have hne0 : getValueWithFallback (some row) pk ≠ "" :=
        fun hc => hpk (beq_of_eq hc)
      cases hfind : findCompIdx comps st.compMatched cpk
          (keyPart (getValueWithFallback (some row) pk)) with
      | none =>
        simp only [hfind]
        obtain ⟨k1, k2, k3, k4, k5, k6⟩ := ih st hcm hl2 hord2 hbound2r hpw hvalid hmin
        refine ⟨k1, ?_, k3, k4, k5, ?_⟩
        · obtain ⟨newp, hnp1, hnp2⟩ := k2
          refine ⟨newp, hnp1, ?_⟩
          intro pr hpr
          obtain ⟨p, hp, he⟩ := hnp2 pr hpr
          exact ⟨p, List.mem_cons_of_mem _ hp, he⟩
        · intro p hp hne hnot
          rcases List.mem_cons.mp hp with he | hp2
          · subst he
            intro m ci hci hkey
            unfold findCompIdx at hfind
            rw [Option.map_eq_none'] at hfind
            rw [List.find?_eq_none] at hfind
            have hq := hfind (m, ci) (List.mem_enum_iff_getElem?.mpr (by exact hci))
            have hcontains : st.compMatched.contains m = true := by
              cases hcc : st.compMatched.contains m with
              | true => rfl
              | false =>
                exfalso
                apply hq
                show (!st.compMatched.contains m &&
                  (keyPart (getValueWithFallback (some ci) cpk) ==
                    keyPart (getValueWithFallback (some row) pk))) = true
                rw [hcc, beq_of_eq (show
                  keyPart (getValueWithFallback (some ci) cpk) =
                    keyPart (getValueWithFallback (some row) pk) from hkey)]
                rfl
            obtain ⟨newp, hnp1, hnp2⟩ := k2
            show m ∈ (((phase1Go comps pk cpk rest st).trace.filterMap pairFn).filter
              (fun q => q.1 < idx)).map Prod.snd
            rw [hnp1, List.filter_append, List.map_append]
            apply List.mem_append_left
            rw [hfilterS, ← hcm]
            simpa using hcontains
          · exact k6 p hp2 hne hnot
      | some compIdx =>
        simp only [hfind]
        obtain ⟨cj, hcj, hcjfresh, hcjeq, hcjmin⟩ := findCompIdx_spec hfind
        have hS2 : (st.trace ++
            [(⟨some idx, some compIdx, ExistsStatus.both, false⟩ : TraceRow)]).filterMap
              pairFn = st.trace.filterMap pairFn ++ [(idx, compIdx)] := by
          rw [List.filterMap_append]
          rfl
        have hcm2 : (st.compMatched ++ [compIdx]) =
            (((st.trace ++ [(⟨some idx, some compIdx, ExistsStatus.both, false⟩ :
              TraceRow)]).filterMap pairFn).map Prod.snd) := by
          rw [hS2, List.map_append, ← hcm]
          rfl
        have hbound2 : ∀ pr ∈ (st.trace ++
            [(⟨some idx, some compIdx, ExistsStatus.both, false⟩ :
              TraceRow)]).filterMap pairFn, ∀ p ∈ rest, pr.1 < p.1 := by
          rw [hS2]
          intro pr hpr p hp
          rcases List.mem_append.mp hpr with h | h
          · exact hbound2r pr h p hp
          · simp only [List.mem_singleton] at h
            rw [h]
            exact hlt p hp
        have hpw2 : List.Pairwise (fun a b : ℕ × ℕ => a.1 < b.1)
            ((st.trace ++ [(⟨some idx, some compIdx, ExistsStatus.both, false⟩ :
              TraceRow)]).filterMap pairFn) := by
          rw [hS2, List.pairwise_append]
          refine ⟨hpw, List.pairwise_singleton _ _, ?_⟩
          intro a ha b hb
          simp only [List.mem_singleton] at hb
          rw [hb]
          exact hbound a ha (idx, row) (List.mem_cons_self _ _)
        have hvalid2 : ∀ pr ∈ (st.trace ++
            [(⟨some idx, some compIdx, ExistsStatus.both, false⟩ :
              TraceRow)]).filterMap pairFn, ∃ ri ci,
            fr[pr.1]? = some ri ∧ comps[pr.2]? = some ci ∧
            getValueWithFallback (some ri) pk ≠ "" ∧
            keyPart (getValueWithFallback (some ci) cpk) =
              keyPart (getValueWithFallback (some ri) pk) := by
          rw [hS2]
          intro pr hpr
          rcases List.mem_append.mp hpr with h | h
          · exact hvalid pr h
          · simp only [List.mem_singleton] at h
            rw [h]
            exact ⟨row, cj, hlhead, hcj, hne0, hcjeq⟩
        have hmin2 : ∀ pr ∈ (st.trace ++
            [(⟨some idx, some compIdx, ExistsStatus.both, false⟩ :
              TraceRow)]).filterMap pairFn, ∀ ri, fr[pr.1]? = some ri →
            ∀ m, m < pr.2 → ∀ ci, comps[m]? = some ci →
            keyPart (getValueWithFallback (some ci) cpk) =
              keyPart (getValueWithFallback (some ri) pk) →
            m ∈ ((((st.trace ++ [(⟨some idx, some compIdx, ExistsStatus.both, false⟩ :
              TraceRow)]).filterMap pairFn).filter
                (fun q => q.1 < pr.1)).map Prod.snd) := by
          rw [hS2]
          intro pr hpr ri hri m hm ci hci hkey
          rw [List.filter_append, List.map_append]
          rcases List.mem_append.mp hpr with h | h
          · exact List.mem_append_left _ (hmin pr h ri hri m hm ci hci hkey)
          · simp only [List.mem_singleton] at h
            subst h
            have hri2 : fr[idx]? = some ri := hri
            rw [hlhead] at hri2
            have hrow : row = ri := Option.some.inj hri2
            subst hrow
            have hcont := hcjmin m hm ci hci hkey
            apply List.mem_append_left
            show m ∈ ((st.trace.filterMap pairFn).filter
              (fun q => q.1 < idx)).map Prod.snd
            rw [hfilterS, ← hcm]
            simpa using hcont
        obtain ⟨k1, k2, k3, k4, k5, k6⟩ := ih ⟨st.refMatched ++ [idx],
          st.compMatched ++ [compIdx],
          st.trace ++ [⟨some idx, some compIdx, ExistsStatus.both, false⟩]⟩
          hcm2 hl2 hord2 hbound2 hpw2 hvalid2 hmin2
        refine ⟨k1, ?_, k3, k4, k5, ?_⟩
        · obtain ⟨newp, hnp1, hnp2⟩ := k2
          refine ⟨(idx, compIdx) :: newp, ?_, ?_⟩
          · rw [hnp1]
            show (st.trace ++
              [(⟨some idx, some compIdx, ExistsStatus.both, false⟩ :
                TraceRow)]).filterMap pairFn ++ newp =
              st.trace.filterMap pairFn ++ ((idx, compIdx) :: newp)
            rw [hS2, List.append_assoc]
            rfl
          · intro pr hpr
            rcases List.mem_cons.mp hpr with h | h
            · exact ⟨(idx, row), List.mem_cons_self _ _, by rw [h]⟩
            · obtain ⟨p, hp, he⟩ := hnp2 pr h
              exact ⟨p, List.mem_cons_of_mem _ hp, he⟩
        · intro p hp hne hnot
          rcases List.mem_cons.mp hp with he | hp2
          · exfalso
            obtain ⟨newp, hnp1, hnp2⟩ := k2
            apply hnot
            subst he
            show idx ∈ (((phase1Go comps pk cpk rest
              ⟨st.refMatched ++ [idx], st.compMatched ++ [compIdx],
                st.trace ++ [⟨some idx, some compIdx, ExistsStatus.both,
                  false⟩]⟩).trace.filterMap pairFn).map Prod.fst)
            rw [hnp1, hS2, List.map_append, List.map_append]
            apply List.mem_append_left
            apply List.mem_append_right
            simp
          · exact k6 p hp2 hne hnot

/-! ## Claim theorems -/

/-- **C6** — ValueMatcher reference cases: `isValuesMatch("1","1.0")`,
`(" Foo ","foo")` and `("1,000","1000")` are matches, `("A","B")` is not,
via the normalize/lower-case path and the comma-stripping numeric path. -/
theorem c6_value_matcher_reference_cases :
    isValuesMatch (some "1") (some "1.0") = true ∧
    isValuesMatch (some " Foo ") (some "foo") = true ∧
    isValuesMatch (some "1,000") (some "1000") = true ∧
    isValuesMatch (some "A") (some "B") = false := by
  decide

/-- **C10** — a blank value never matches a non-blank value: whenever
`normalizeKey a` is empty and `normalizeKey b` is not, `isValuesMatch a b`
is `false`, because the numeric path requires both normalized strings to be
non-empty. -/
theorem c10_blank_never_matches_nonblank (a b : Option String)
    (h1 : normalizeKey a = "") (h2 : normalizeKey b ≠ "") :
    isValuesMatch a b = false := by
  unfold isValuesMatch
  have hlow : jsToLower (normalizeKey b) ≠ "" := by
    intro hc
    exact h2 ((jsToLower_eq_empty_iff (normalizeKey b)).mp hc)
  have hcond : (jsToLower (normalizeKey a) == jsToLower (normalizeKey b)) = false := by
    rw [h1]
    exact beq_false_of_ne (fun hc => hlow hc.symm)
  simp only [h1, hcond]
  simp
  exact fun hc => hlow hc.symm

/-- **C10 witness** — in particular `isValuesMatch("", "0") = false` even
though JS `Number("")` evaluates to 0. -/
theorem c10_blank_never_matches_nonblank_witness :
    isValuesMatch (some "") (some "0") = false :=
  c10_blank_never_matches_nonblank (some "") (some "0") (by decide) (by decide)

/-- **C2** — every result row of `compareDatasets` has a non-empty
`integratedKey`: `getIntegratedKey` returns the normalized reference key, else
the normalized comparison key, else the sentinel `'UNKNOWN'`, never `""`. -/
theorem c2_integrated_key_nonempty (rt : RegexOracle) (refData compData : List RawRow)
    (config : ComparisonConfig) (useB1Filter : Bool) (r : ComparisonResult)
    (hr : r ∈ compareDatasets rt refData compData config useB1Filter) :
    r.integratedKey ≠ "" := by
  unfold compareDatasets at hr
  simp only [List.mem_map] at hr
  obtain ⟨t, _, rfl⟩ := hr
  have hik : ∀ (x : ComparisonResult) (b : Bool),
      ({ x with skMatch := b } : ComparisonResult).integratedKey = x.integratedKey :=
    fun x b => rfl
  rw [hik]
  exact createResultRow_integratedKey_ne _ _ _ _ _

set_option maxHeartbeats 1000000 in
/-- **C2 witness** — instantiated on a concrete one-row dataset. -/
theorem c2_integrated_key_nonempty_witness :
    (⟨"0-1", .onlyRef, "0-1", "", [("TAG_기준", "0-1"), ("TAG_기준검토", ""),
        ("TAG_비교", ""), ("TAG_비교검토", "")], [], false⟩ : ComparisonResult).integratedKey ≠ "" :=
  c2_integrated_key_nonempty (fun _ _ => some false) [[("TAG", "0-1")]] []
    ⟨"TAG", none, [⟨"TAG", "TAG", true, true, false⟩], none, none, none⟩ false
    ⟨"0-1", .onlyRef, "0-1", "", [("TAG_기준", "0-1"), ("TAG_기준검토", ""),
        ("TAG_비교", ""), ("TAG_비교검토", "")], [], false⟩
    (by decide)

/-- **C7** — key columns in the per-column summary: for a mapping entry with
`isPK` or `isSK`, `sameCount` equals the number of `Both`/`Both(M)` rows, the
mismatch contribution to `diffCount` is 0 (it is exactly the only-side
counts), and no mismatch status is reported — regardless of cell values. -/
theorem c7_summary_key_columns (m : MappingInfo) (rows : List GridRow)
    (h : (m.isPK || m.isSK) = true) :
    (summaryEntryOf m rows).sameCount = (rows.filter isBothish).length ∧
    (summaryEntryOf m rows).diffCount =
      (summaryEntryOf m rows).onlyCompCount + (summaryEntryOf m rows).onlyRefCount ∧
    (summaryEntryOf m rows).statusText = "" := by
  unfold summaryEntryOf
  simp [h]

/-- **C7 witness** — a PK column with deliberately differing stored cell
values still reports all `Both` rows as same and no mismatch. -/
theorem c7_summary_key_columns_witness :
    ((⟨"TAG", "TAG", true, true, false⟩ : MappingInfo).isPK ||
      (⟨"TAG", "TAG", true, true, false⟩ : MappingInfo).isSK) = true ∧
    (summaryEntryOf ⟨"TAG", "TAG", true, true, false⟩
        [⟨"A", .both, "A", "", [("TAG_기준", "A"), ("TAG_비교", "ZZZ")]⟩]).sameCount =
      ([⟨"A", .both, "A", "", [("TAG_기준", "A"), ("TAG_비교", "ZZZ")]⟩].filter isBothish).length :=
  ⟨by decide,
    (c7_summary_key_columns ⟨"TAG", "TAG", true, true, false⟩
      [⟨"A", .both, "A", "", [("TAG_기준", "A"), ("TAG_비교", "ZZZ")]⟩] (by decide)).1⟩

/-- **C8** — commit identical-value skip: when the trimmed reviewed value is
non-empty and equals the document cell's trimmed current text, the commit
step leaves the cell value unchanged, clears the highlight style, adds 1 to
the identical/skip counter and 0 to the updated counter. -/
theorem c8_commit_identical_skip (v : String) (n : ℕ) (current : String)
    (h1 : jsTrim v ≠ "") (h2 : jsTrim current = jsTrim v) :
    commitReviewCell (some v) (some n) current = .identicalSkip ∧
    commitNewValue (commitReviewCell (some v) (some n) current) = none ∧
    commitUpdatedDelta (commitReviewCell (some v) (some n) current) = 0 ∧
    commitIdenticalDelta (commitReviewCell (some v) (some n) current) = 1 ∧
    commitClearsStyle (commitReviewCell (some v) (some n) current) = true := by
  have hstep : commitReviewCell (some v) (some n) current = .identicalSkip := by
    unfold commitReviewCell
    have hb : (jsTrim v == "") = false := beq_false_of_ne h1
    simp only [hb, Bool.false_eq_true, if_false, h2, ne_eq, not_true_eq_false, if_neg,
      not_false_eq_true, if_true]
  refine ⟨hstep, ?_, ?_, ?_, ?_⟩ <;> rw [hstep] <;> rfl

/-- **C8 witness** — reviewed value `"v"` against current text `" v "`. -/
theorem c8_commit_identical_skip_witness :
    jsTrim "v" ≠ "" ∧
    commitReviewCell (some "v") (some 3) " v " = .identicalSkip :=
  ⟨by decide, (c8_commit_identical_skip "v" 3 " v " (by decide) (by decide)).1⟩

/-- **C4 counterexample** — `applyReviewCompensation` is not idempotent on
the row set as claimed: when a merged-away member's PK review value carries
a `'::'` suffix (`"A::2"`) while the representative's does not (`"A"`), the
merge concatenates them to `"A / A::2"`, whose `'::'`-prefix is `"A / A"`;
a second run with no new reviewer edits then re-keys the merged row from
`"A"` to `"A / A"`. -/
theorem c4_not_idempotent :
    applyReviewCompensation [] "TAG"
        (applyReviewCompensation [] "TAG"
          [⟨"A", .both, "A", "", [("TAG_기준검토", "A")]⟩,
            ⟨"B", .onlyRef, "B", "", [("TAG_기준검토", "A::2")]⟩]) ≠
      applyReviewCompensation [] "TAG"
        [⟨"A", .both, "A", "", [("TAG_기준검토", "A")]⟩,
          ⟨"B", .onlyRef, "B", "", [("TAG_기준검토", "A::2")]⟩] := by
  decide

/-- **C4 (amended)** — `applyReviewCompensation` is idempotent on the rows
state provided no PK review value contains the merge separator `"::"` (and
each row's cell keys are duplicate-free, as JS object keys are): a second
application with no reviewer edits in between returns the same row list —
same rows, same order, same field values — and performs no further
regrouping. -/
theorem c4_idempotent_without_separator (mappings : List MappingInfo)
    (pkColumn : String) (rows : List GridRow)
    (hsep : ∀ r ∈ rows,
      hasSep (jsTrim (cellStr r (reviewColsOf mappings pkColumn).1)) = false ∧
      hasSep (jsTrim (cellStr r (reviewColsOf mappings pkColumn).2)) = false)
    (hnodup : ∀ r ∈ rows, (r.cells.map Prod.fst).Nodup) :
    applyReviewCompensation mappings pkColumn
        (applyReviewCompensation mappings pkColumn rows) =
      applyReviewCompensation mappings pkColumn rows := by
  obtain ⟨x, hx⟩ := reviewColsOf_shape mappings pkColumn
  have hanr : reservedCols.contains (reviewColsOf mappings pkColumn).1 = false := by
    rw [hx]
    exact refRevCol_not_reserved x
  have hbnr : reservedCols.contains (reviewColsOf mappings pkColumn).2 = false := by
    rw [hx]
    exact compRevCol_not_reserved x
  by_cases hch : (rows.filter (fun r => hasReviewVal (reviewColsOf mappings pkColumn).1
      (reviewColsOf mappings pkColumn).2 r)).isEmpty
  · have h1 : applyReviewCompensation mappings pkColumn rows = rows := by
      rw [applyRC_eq, if_pos hch]
    rw [h1]
    exact h1
  · have h1 : applyReviewCompensation mappings pkColumn rows =
        (buildGroups (reviewColsOf mappings pkColumn).1 (reviewColsOf mappings pkColumn).2
          rows).flatMap (fun g => processGroup (reviewColsOf mappings pkColumn).1
            (reviewColsOf mappings pkColumn).2 g.1 g.2) := by
      rw [applyRC_eq, if_neg hch]
    have hfacts := applyRC_out_facts (reviewColsOf mappings pkColumn).1
      (reviewColsOf mappings pkColumn).2 rows hanr hbnr hsep hnodup
    rw [h1]
    rw [applyRC_eq]
    split_ifs with hch2
    · rfl
    · have hpair : ((buildGroups (reviewColsOf mappings pkColumn).1
          (reviewColsOf mappings pkColumn).2 rows).flatMap
            (fun g => processGroup (reviewColsOf mappings pkColumn).1
              (reviewColsOf mappings pkColumn).2 g.1 g.2)).Pairwise
          (fun r s => targetKeyOf (reviewColsOf mappings pkColumn).1
            (reviewColsOf mappings pkColumn).2 r ≠
              targetKeyOf (reviewColsOf mappings pkColumn).1
                (reviewColsOf mappings pkColumn).2 s) := by
        have hkeys := hfacts.2
        have hmapeq : ((buildGroups (reviewColsOf mappings pkColumn).1
            (reviewColsOf mappings pkColumn).2 rows).flatMap
              (fun g => processGroup (reviewColsOf mappings pkColumn).1
                (reviewColsOf mappings pkColumn).2 g.1 g.2)).map
            (fun r => targetKeyOf (reviewColsOf mappings pkColumn).1
              (reviewColsOf mappings pkColumn).2 r) =
            ((buildGroups (reviewColsOf mappings pkColumn).1
              (reviewColsOf mappings pkColumn).2 rows).flatMap
                (fun g => processGroup (reviewColsOf mappings pkColumn).1
                  (reviewColsOf mappings pkColumn).2 g.1 g.2)).map
              (fun r => r.integratedKey) := by
          apply List.map_congr_left
          intro r hr
          exact (hfacts.1 r hr).symm
        rw [← hmapeq] at hkeys
        exact List.pairwise_map.mp hkeys
      rw [buildGroups_eq_map_of_pairwise _ _ _ hpair]
      exact flatMap_singleton_groups _ _ _ (fun r hr => (hfacts.1 r hr).symm)

/-- **C4 (amended) witness** — a concrete two-row state that merges on the
first run and is unchanged by the second. -/
theorem c4_idempotent_without_separator_witness :
    applyReviewCompensation [] "TAG"
        (applyReviewCompensation [] "TAG"
          [⟨"A", .both, "A", "", [("TAG_기준검토", "B")]⟩,
            ⟨"B", .onlyRef, "B", "", [("DESC_기준", "pump")]⟩]) =
      applyReviewCompensation [] "TAG"
        [⟨"A", .both, "A", "", [("TAG_기준검토", "B")]⟩,
          ⟨"B", .onlyRef, "B", "", [("DESC_기준", "pump")]⟩] :=
  c4_idempotent_without_separator [] "TAG"
    [⟨"A", .both, "A", "", [("TAG_기준검토", "B")]⟩,
      ⟨"B", .onlyRef, "B", "", [("DESC_기준", "pump")]⟩]
    (by decide) (by decide)

/-- **C9 counterexample** — the counter reset alone does not make
synthetic-identity generation deterministic: the same one-generation
sequence started from counter 0 yields different keys for different clock
readings, because `generateCheckKey` embeds `Date.now()` in the key. -/
theorem c9_reset_not_sufficient :
    runGenKeys [(GenOp.check, 0)] 0 ≠ runGenKeys [(GenOp.check, 1)] 0 := by
  decide

/-- **C9 (amended)** — after `resetCheckCounter()` the generation is
deterministic up to the observed clock: the i-th generated key is a function
of the op kind, its `Date.now()` reading and the number of counter-consuming
generations so far (`1, 2, 3, …` from the reset), so two runs with the same
ops and the same clock readings produce identical key sequences. -/
theorem c9_deterministic_given_clock (ops : List (GenOp × ℕ)) (counter : ℕ) :
    ∀ i, (h : i < ops.length) →
      (runGenKeys ops counter).length = ops.length ∧
      (runGenKeys ops counter)[i]? =
        some (match ops.get ⟨i, h⟩ with
          | (GenOp.check, now) =>
            "CHECK-" ++ toString now ++ "-" ++ toString (counter + countChecks (ops.take (i + 1)))
          | (GenOp.checklist, now) => "CHECK-" ++ toString now) := by
  induction ops generalizing counter with
  | nil => intro i h; exact absurd h (Nat.not_lt_zero i)
  | cons op rest ih =>
    intro i h
    refine ⟨runGenKeys_length (op :: rest) counter, ?_⟩
    obtain ⟨g, now⟩ := op
    cases i with
    | zero =>
      cases g with
      | check =>
        simp [runGenKeys, generateCheckKey, countChecks, List.countP_cons]
      | checklist =>
        simp [runGenKeys, checklistItemKey, countChecks]
    | succ j =>
      have hj : j < rest.length := by
        simpa using h
      cases g with
      | check =>
        simp only [runGenKeys]
        rw [List.getElem?_cons_succ]
        have h2step : (generateCheckKey now counter).2 = counter + 1 := rfl
        rw [h2step, (ih (counter + 1) j hj).2]
        have hget : (((GenOp.check, now) :: rest).get ⟨j + 1, h⟩) = rest.get ⟨j, hj⟩ := rfl
        rw [hget]
        have hcc : countChecks (List.take (j + 1 + 1) ((GenOp.check, now) :: rest)) =
            countChecks (List.take (j + 1) rest) + 1 := by
          simp [List.take_succ_cons, countChecks, List.countP_cons]
        rw [hcc]
        have harith : counter + (countChecks (List.take (j + 1) rest) + 1) =
            counter + 1 + countChecks (List.take (j + 1) rest) := by omega
        rw [harith]
      | checklist =>
        simp only [runGenKeys]
        rw [List.getElem?_cons_succ]
        rw [(ih counter j hj).2]
        have hget : (((GenOp.checklist, now) :: rest).get ⟨j + 1, h⟩) = rest.get ⟨j, hj⟩ := rfl
        rw [hget]
        have hcc : countChecks (List.take (j + 1 + 1) ((GenOp.checklist, now) :: rest)) =
            countChecks (List.take (j + 1) rest) := by
          simp [List.take_succ_cons, countChecks, List.countP_cons]
        rw [hcc]

/-- **C9 (amended) witness** — a concrete two-op run from the reset counter. -/
theorem c9_deterministic_given_clock_witness :
    (0 : ℕ) < ([(GenOp.check, 5), (GenOp.check, 7)] : List (GenOp × ℕ)).length ∧
    (runGenKeys [(GenOp.check, 5), (GenOp.check, 7)] 0)[0]? = some "CHECK-5-1" :=
  ⟨by decide, by
    have := (c9_deterministic_given_clock [(GenOp.check, 5), (GenOp.check, 7)] 0 0
      (by decide)).2
    simpa using this⟩

/-- **C1** — matching completeness: after exclusion filtering, every surviving
reference row index appears in exactly one trace row (a `Both` or `Only Ref`
row), every surviving comparison row index appears in exactly one trace row
(a `Both` or `Only Comp` row), and `compareDatasets` emits exactly one result
row per trace row with the same status. -/
theorem c1_matching_completeness (rt : RegexOracle) (refData compData : List RawRow)
    (config : ComparisonConfig) (useB1Filter : Bool) (fr fc : List RawRow)
    (trace : List TraceRow)
    (heq : compareTrace rt refData compData config useB1Filter = (fr, fc, trace)) :
    (∀ i : ℕ, i < fr.length →
      trace.countP (fun t => t.refIdx == some i) = 1 ∧
      ∀ t ∈ trace, t.refIdx = some i →
        t.status = ExistsStatus.both ∨ t.status = ExistsStatus.onlyRef) ∧
    (∀ j : ℕ, j < fc.length →
      trace.countP (fun t => t.compIdx == some j) = 1 ∧
      ∀ t ∈ trace, t.compIdx = some j →
        t.status = ExistsStatus.both ∨ t.status = ExistsStatus.onlyComp) ∧
    (compareDatasets rt refData compData config useB1Filter).map (fun r => r.status) =
      trace.map (fun t => t.status) := by
  set FR := applyExclusionRules rt refData config.pkColumn useB1Filter
    config.pkExclusion config.exclusionRules with hFRdef
  set FC := applyExclusionRules rt compData (compPKColumnOf config.mappings config.pkColumn)
    useB1Filter config.pkExclusion config.exclusionRules with hFCdef
  set st1 := phase1Go FC config.pkColumn (compPKColumnOf config.mappings config.pkColumn)
    FR.enum (⟨[], [], []⟩ : MatchState) with hst1def
  set st2 := (match config.skColumn, compSKColumnOf config.mappings with
    | some sk, some compSK =>
      if sk ≠ "" && compSK ≠ "" then phase2Go FC sk compSK FR.enum st1 else st1
    | _, _ => st1) with hst2def
  have hfr : FR = fr := congrArg Prod.fst heq
  have hfc : FC = fc := congrArg (fun x => x.2.1) heq
  have htr : (phase4Go FC.enum (phase3Go FR.enum st2)).trace = trace :=
    congrArg (fun x => x.2.2) heq
  obtain ⟨hr1, hc1, hb1⟩ := phase1_inv FC config.pkColumn
    (compPKColumnOf config.mappings config.pkColumn) FR.enum ⟨[], [], []⟩
    (fun p hp => rfl) (by rw [List.enum_map_fst]; exact List.nodup_range _)
    (fun i => rfl) (fun j => rfl) (by intro t ht; simp at ht)
  obtain ⟨hr2, hc2, hb2⟩ := phaseOpt2_inv FC config.skColumn (compSKColumnOf config.mappings)
    FR.enum st1 st2 hst2def hr1 hc1 hb1
  rw [phase3_eq, phase4_eq] at htr
  simp only [List.append_assoc] at htr
  refine ⟨?_, ?_, ?_⟩
  · intro i hi
    have hiFR : i < FR.length := by
      rw [hfr]
      exact hi
    have himem : i ∈ FR.enum.map Prod.fst := by
      rw [List.enum_map_fst]
      exact List.mem_range.mpr hiFR
    have hnd : (FR.enum.map Prod.fst).Nodup := by
      rw [List.enum_map_fst]
      exact List.nodup_range _
    constructor
    · rw [← htr, List.countP_append, List.countP_append, hr2 i]
      by_cases hcon : st2.refMatched.contains i = true
      · have hmem : i ∈ st2.refMatched := by simpa using hcon
        rw [count3_ref_zero FR.enum st2.refMatched i hcon,
          count4_ref_zero FC.enum st2.compMatched i]
        simp [hmem]
      · have hcon0 : st2.refMatched.contains i = false := bool_eq_false hcon
        have hmem : i ∉ st2.refMatched := by simpa using hcon0
        rw [count3_ref_one FR.enum st2.refMatched i hnd hcon0 himem,
          count4_ref_zero FC.enum st2.compMatched i]
        simp [hmem]
    · intro t ht hti
      rw [← htr] at ht
      rcases List.mem_append.mp ht with h | h
      · exact Or.inl (hb2 t h)
      · rcases List.mem_append.mp h with h3 | h4
        · right
          rw [List.mem_map] at h3
          obtain ⟨p, hp, hteq⟩ := h3
          subst hteq
          rfl
        · exfalso
          rw [List.mem_map] at h4
          obtain ⟨p, hp, hteq⟩ := h4
          subst hteq
          simp at hti
  · intro j hj
    have hjFC : j < FC.length := by
      rw [hfc]
      exact hj
    have hjmem : j ∈ FC.enum.map Prod.fst := by
      rw [List.enum_map_fst]
      exact List.mem_range.mpr hjFC
    have hndc : (FC.enum.map Prod.fst).Nodup := by
      rw [List.enum_map_fst]
      exact List.nodup_range _
    constructor
    · rw [← htr, List.countP_append, List.countP_append, hc2 j]
      by_cases hcon : st2.compMatched.contains j = true
      · have hmem : j ∈ st2.compMatched := by simpa using hcon
        rw [count3_comp_zero FR.enum st2.refMatched j,
          count4_comp_zero FC.enum st2.compMatched j hcon]
        simp [hmem]
      · have hcon0 : st2.compMatched.contains j = false := bool_eq_false hcon
        have hmem : j ∉ st2.compMatched := by simpa using hcon0
        rw [count3_comp_zero FR.enum st2.refMatched j,
          count4_comp_one FC.enum st2.compMatched j hndc hcon0 hjmem]
        simp [hmem]
    · intro t ht htj
      rw [← htr] at ht
      rcases List.mem_append.mp ht with h | h
      · exact Or.inl (hb2 t h)
      · rcases List.mem_append.mp h with h3 | h4
        · exfalso
          rw [List.mem_map] at h3
          obtain ⟨p, hp, hteq⟩ := h3
          subst hteq
          simp at htj
        · right
          rw [List.mem_map] at h4
          obtain ⟨p, hp, hteq⟩ := h4
          subst hteq
          rfl
  · have hmapstat : ∀ tr : List TraceRow, ∀ f : TraceRow → ComparisonResult,
        (∀ t, (f t).status = t.status) →
        (tr.map f).map (fun r => r.status) = tr.map (fun t => t.status) := by
      intro tr f hf
      rw [List.map_map]
      exact List.map_congr_left (fun t _ => hf t)
    have hcd : compareDatasets rt refData compData config useB1Filter =
        trace.map (fun t =>
          { createResultRow (t.refIdx.bind (fun i => fr[i]?))
              (t.compIdx.bind (fun i => fc[i]?)) t.status config.pkColumn
              (filterMappings rt
                (config.mappings.filter (fun m => m.isTarget || m.isPK || m.isSK))
                config.columnExclusion)
            with skMatch := t.skMatch }) := by
      unfold compareDatasets
      rw [heq]
    have hfun : ∀ t : TraceRow,
        (({ createResultRow (t.refIdx.bind (fun i => fr[i]?))
              (t.compIdx.bind (fun i => fc[i]?)) t.status config.pkColumn
              (filterMappings rt
                (config.mappings.filter (fun m => m.isTarget || m.isPK || m.isSK))
                config.columnExclusion)
            with skMatch := t.skMatch } : ComparisonResult)).status = t.status := by
      intro t
      have h1 : (({ createResultRow (t.refIdx.bind (fun i => fr[i]?))
              (t.compIdx.bind (fun i => fc[i]?)) t.status config.pkColumn
              (filterMappings rt
                (config.mappings.filter (fun m => m.isTarget || m.isPK || m.isSK))
                config.columnExclusion)
            with skMatch := t.skMatch } : ComparisonResult)).status =
          (createResultRow (t.refIdx.bind (fun i => fr[i]?))
            (t.compIdx.bind (fun i => fc[i]?)) t.status config.pkColumn
            (filterMappings rt
              (config.mappings.filter (fun m => m.isTarget || m.isPK || m.isSK))
              config.columnExclusion)).status := rfl
      rw [h1, createResultRow_status]
    rw [hcd]
    exact hmapstat trace _ hfun

/-- **C1 witness** — a two-row reference set against a one-row comparison set:
the trace pairs index 0 with index 0 and emits `Only Ref` for index 1,
which therefore appears in exactly one trace row. -/
theorem c1_matching_completeness_witness :
    (compareTrace (fun _ _ => some false) [[("TAG", "A")], [("TAG", "B")]]
        [[("TAG", "A")]]
        ⟨"TAG", none, [⟨"TAG", "TAG", true, true, false⟩], none, none, none⟩ false =
      ([[("TAG", "A")], [("TAG", "B")]], [[("TAG", "A")]],
        [⟨some 0, some 0, ExistsStatus.both, false⟩,
         ⟨some 1, none, ExistsStatus.onlyRef, false⟩])) ∧
    ([(⟨some 0, some 0, ExistsStatus.both, false⟩ : TraceRow),
      ⟨some 1, none, ExistsStatus.onlyRef, false⟩].countP
        (fun t => t.refIdx == some 1)) = 1 :=
  ⟨by decide,
    ((c1_matching_completeness (fun _ _ => some false) [[("TAG", "A")], [("TAG", "B")]]
        [[("TAG", "A")]]
        ⟨"TAG", none, [⟨"TAG", "TAG", true, true, false⟩], none, none, none⟩ false
        [[("TAG", "A")], [("TAG", "B")]] [[("TAG", "A")]]
        [⟨some 0, some 0, ExistsStatus.both, false⟩,
         ⟨some 1, none, ExistsStatus.onlyRef, false⟩]
        (by decide)).1 1 (by decide)).1⟩

/-- **C3** — first-match-wins identity matching: the principle-1 pairs of
the trace are produced in ascending reference order; each pair joins an
existing reference row with a non-blank effective identity to an existing
comparison row with the same `'::'`-prefix; every smaller comparison index
with the same prefix was already consumed by a pair of an earlier reference
row; and a reference row with a non-blank identity that stays unpaired by
principle 1 only does so because every equal-prefix comparison index was
consumed by earlier pairs. -/
theorem c3_first_match_wins (rt : RegexOracle) (refData compData : List RawRow)
    (config : ComparisonConfig) (useB1Filter : Bool) (fr fc : List RawRow)
    (trace : List TraceRow)
    (heq : compareTrace rt refData compData config useB1Filter = (fr, fc, trace)) :
    List.Pairwise (fun a b : ℕ × ℕ => a.1 < b.1) (trace.filterMap pairFn) ∧
    (∀ pr ∈ trace.filterMap pairFn, ∃ ri ci, fr[pr.1]? = some ri ∧
      fc[pr.2]? = some ci ∧
      getValueWithFallback (some ri) config.pkColumn ≠ "" ∧
      keyPart (getValueWithFallback (some ci)
          (compPKColumnOf config.mappings config.pkColumn)) =
        keyPart (getValueWithFallback (some ri) config.pkColumn)) ∧
    (∀ pr ∈ trace.filterMap pairFn, ∀ ri, fr[pr.1]? = some ri →
      ∀ m, m < pr.2 → ∀ ci, fc[m]? = some ci →
      keyPart (getValueWithFallback (some ci)
          (compPKColumnOf config.mappings config.pkColumn)) =
        keyPart (getValueWithFallback (some ri) config.pkColumn) →
      m ∈ (((trace.filterMap pairFn).filter
        (fun q => q.1 < pr.1)).map Prod.snd)) ∧
    (∀ p ∈ fr.enum, getValueWithFallback (some p.2) config.pkColumn ≠ "" →
      p.1 ∉ ((trace.filterMap pairFn).map Prod.fst) →
      ∀ m ci, fc[m]? = some ci →
      keyPart (getValueWithFallback (some ci)
          (compPKColumnOf config.mappings config.pkColumn)) =
        keyPart (getValueWithFallback (some p.2) config.pkColumn) →
      m ∈ (((trace.filterMap pairFn).filter
        (fun q => q.1 < p.1)).map Prod.snd)) := by
  set FR := applyExclusionRules rt refData config.pkColumn useB1Filter
    config.pkExclusion config.exclusionRules with hFRdef
  set FC := applyExclusionRules rt compData (compPKColumnOf config.mappings config.pkColumn)
    useB1Filter config.pkExclusion config.exclusionRules with hFCdef
  set st1 := phase1Go FC config.pkColumn (compPKColumnOf config.mappings config.pkColumn)
    FR.enum (⟨[], [], []⟩ : MatchState) with hst1def
  set st2 := (match config.skColumn, compSKColumnOf config.mappings with
    | some sk, some compSK =>
      if sk ≠ "" && compSK ≠ "" then phase2Go FC sk compSK FR.enum st1 else st1
    | _, _ => st1) with hst2def
  have hfr : FR = fr := congrArg Prod.fst heq
  have hfc : FC = fc := congrArg (fun x => x.2.1) heq
  have htr : (phase4Go FC.enum (phase3Go FR.enum st2)).trace = trace :=
    congrArg (fun x => x.2.2) heq
  have hpairs : trace.filterMap pairFn = st1.trace.filterMap pairFn := by
    rw [← htr, phase3_eq, phase4_eq]
    simp only [List.filterMap_append, pairs_only3, pairs_only4, List.append_nil]
    exact phaseOpt2_pairs FC config.skColumn (compSKColumnOf config.mappings)
      FR.enum st1 st2 hst2def
  obtain ⟨hk1, hk2, hk3, hk4, hk5, hk6⟩ := phase1_pairs FC config.pkColumn
    (compPKColumnOf config.mappings config.pkColumn) FR FR.enum ⟨[], [], []⟩
    rfl (fun p hp => List.mem_enum_iff_getElem?.mp hp)
    (by
      have h0 := List.pairwise_lt_range FR.length
      rw [← List.enum_map_fst FR] at h0
      exact List.pairwise_map.mp h0)
    (by intro pr hpr; simp at hpr)
    (by simp)
    (by intro pr hpr; simp at hpr)
    (by intro pr hpr ri hri; simp at hpr)
  rw [← hst1def] at hk3 hk4 hk5 hk6
  rw [hfr, hfc] at hk4 hk5 hk6
  refine ⟨?_, ?_, ?_, ?_⟩
  · rw [hpairs]
    exact hk3
  · rw [hpairs]
    exact hk4
  · rw [hpairs]
    exact hk5
  · rw [hpairs]
    exact hk6

/-- **C3 witness** — the two-row versus one-row instance: principle 1 pairs
reference row 0 with comparison row 0 and the pair list is ascending. -/
theorem c3_first_match_wins_witness :
    (compareTrace (fun _ _ => some false) [[("TAG", "A")], [("TAG", "B")]]
        [[("TAG", "A")]]
        ⟨"TAG", none, [⟨"TAG", "TAG", true, true, false⟩], none, none, none⟩ false =
      ([[("TAG", "A")], [("TAG", "B")]], [[("TAG", "A")]],
        [⟨some 0, some 0, ExistsStatus.both, false⟩,
         ⟨some 1, none, ExistsStatus.onlyRef, false⟩])) ∧
    List.Pairwise (fun a b : ℕ × ℕ => a.1 < b.1)
      (([(⟨some 0, some 0, ExistsStatus.both, false⟩ : TraceRow),
         ⟨some 1, none, ExistsStatus.onlyRef, false⟩]).filterMap pairFn) :=
  ⟨by decide,
    (c3_first_match_wins (fun _ _ => some false) [[("TAG", "A")], [("TAG", "B")]]
      [[("TAG", "A")]]
      ⟨"TAG", none, [⟨"TAG", "TAG", true, true, false⟩], none, none, none⟩ false
      [[("TAG", "A")], [("TAG", "B")]] [[("TAG", "A")]]
      [⟨some 0, some 0, ExistsStatus.both, false⟩,
       ⟨some 1, none, ExistsStatus.onlyRef, false⟩]
      (by decide)).1⟩

/-- **C5 (counterexample)** — coinciding target keys alone do not force a
merge: when no row of the state carries a PK review value,
`applyReviewCompensation` returns the rows unchanged (the review-change
guard), so a two-row group whose target keys coincide survives as two rows
and none of them is `Both(M)`. -/
theorem c5_no_merge_without_review_values :
    2 ≤ (([⟨"A", ExistsStatus.both, "", "", []⟩,
           ⟨"A", ExistsStatus.onlyRef, "", "", []⟩] : List GridRow).filter
        (fun r => targetKeyOf (reviewColsOf [] "TAG").1
          (reviewColsOf [] "TAG").2 r == "A")).length ∧
    (applyReviewCompensation [] "TAG"
        [⟨"A", ExistsStatus.both, "", "", []⟩,
         ⟨"A", ExistsStatus.onlyRef, "", "", []⟩]).countP
      (fun r => r.integratedKey == "A") ≠ 1 := by
  decide

/-- **C5 (amended)** — merge correctness given that the pass runs: if some
row carries a PK review value (so `getReviewChanges` is non-empty) and a
target key `k` has at least two rows, then `applyReviewCompensation`
produces exactly one surviving row with key `k`; it has status `Both(M)`,
keeps the representative's `standardPK`/`standardSK` (representative = the
first group member with status `Both`/`Both(M)`, else the first member),
and each of its cells is the spec-level merge fold of the members' values
onto the representative's value: remark-type columns concatenate with
`' / '` skipping duplicates, other columns fill only a blank value,
reserved identity fields are untouched. -/
theorem c5_merge_correctness (mappings : List MappingInfo) (pkColumn k : String)
    (rows : List GridRow) (a b : String)
    (hab : reviewColsOf mappings pkColumn = (a, b))
    (hnodup : ∀ r ∈ rows, (r.cells.map Prod.fst).Nodup)
    (hch : rows.filter (fun r => hasReviewVal a b r) ≠ [])
    (hsize : 2 ≤ (rows.filter (fun r => targetKeyOf a b r == k)).length) :
    (applyReviewCompensation mappings pkColumn rows).countP
        (fun r => r.integratedKey == k) = 1 ∧
    (∃ m ∈ applyReviewCompensation mappings pkColumn rows,
      m.integratedKey = k ∧ m.status = ExistsStatus.bothMerged ∧
      (let grp := rows.filter (fun r => targetKeyOf a b r == k)
       let rep := match List.find? isBothish grp with
         | some rr => rr
         | none => grp.headI
       m.standardPK = rep.standardPK ∧ m.standardSK = rep.standardSK ∧
       ∀ c : String, cellStr m c =
         (grp.map (fun r => cellStr r c)).foldl (mergeTwoSpec c) (cellStr rep c))) := by
  have ha1 : (reviewColsOf mappings pkColumn).1 = a := by rw [hab]
  have hb1 : (reviewColsOf mappings pkColumn).2 = b := by rw [hab]
  have hcond : ¬((rows.filter (fun r => hasReviewVal a b r)).isEmpty = true) := by
    intro hc
    exact hch (List.isEmpty_iff.mp hc)
  have happ : applyReviewCompensation mappings pkColumn rows =
      (buildGroups a b rows).flatMap (fun g => processGroup a b g.1 g.2) := by
    rw [applyRC_eq, ha1, hb1, if_neg hcond]
  set grp := rows.filter (fun r => targetKeyOf a b r == k) with hgrpdef
  have hgrpne : grp ≠ [] := by
    intro h0
    rw [h0] at hsize
    simp at hsize
  have hmemg : (k, grp) ∈ buildGroups a b rows := buildGroups_mem_of_ne a b rows k hgrpne
  obtain ⟨r1, r2, rest, hgrp⟩ : ∃ x y t, grp = x :: y :: t := by
    cases hg : grp with
    | nil =>
      rw [hg] at hsize
      simp at hsize
    | cons x t =>
      cases ht : t with
      | nil =>
        rw [hg, ht] at hsize
        simp at hsize
      | cons y t2 =>
        exact ⟨x, y, t2, rfl⟩
  have hpg : processGroup a b k grp =
      [grp.foldl mergeRowInto
        { (match List.find? isBothish grp with
           | some rr => rr
           | none => grp.headI) with
          integratedKey := k, status := ExistsStatus.bothMerged }] := by
    rw [hgrp]
    cases hf : List.find? isBothish (r1 :: r2 :: rest) with
    | some rr =>
      simp only [processGroup, hf]
    | none =>
      simp only [processGroup, hf, List.headI]
  have hcount : (applyReviewCompensation mappings pkColumn rows).countP
      (fun r => r.integratedKey == k) = 1 := by
    rw [happ]
    have hkeys := flatMap_processGroup_keys a b (buildGroups a b rows)
      (buildGroups_groups_ne a b rows)
    have h1 : (((buildGroups a b rows).flatMap
        (fun g => processGroup a b g.1 g.2)).map (fun r => r.integratedKey)).countP
          (fun s => s == k) =
        ((buildGroups a b rows).map Prod.fst).countP (fun s => s == k) := by
      rw [hkeys]
    rw [List.countP_map] at h1
    have hnd := buildGroups_keys_nodup a b rows
    have hkmem : k ∈ (buildGroups a b rows).map Prod.fst :=
      List.mem_map_of_mem Prod.fst hmemg
    have h2 : ((buildGroups a b rows).map Prod.fst).countP (fun s => s == k) = 1 := by
      have hcnt := List.count_eq_one_of_mem hnd hkmem
      simpa [List.count] using hcnt
    exact h1.trans h2
  refine ⟨hcount, ?_⟩
  refine ⟨grp.foldl mergeRowInto
      { (match List.find? isBothish grp with
         | some rr => rr
         | none => grp.headI) with
        integratedKey := k, status := ExistsStatus.bothMerged }, ?_, ?_, ?_, ?_, ?_, ?_⟩
  · rw [happ, List.mem_flatMap]
    refine ⟨(k, grp), hmemg, ?_⟩
    show _ ∈ processGroup a b k grp
    rw [hpg]
    exact List.mem_singleton_self _
  · rw [groupFold_integratedKey]
  · rw [groupFold_status]
  · rw [groupFold_standardPK]
  · rw [groupFold_standardSK]
  · intro c
    have h1 := groupFold_at grp
      { (match List.find? isBothish grp with
         | some rr => rr
         | none => grp.headI) with
        integratedKey := k, status := ExistsStatus.bothMerged } c
    have h2 : cellStr (grp.foldl mergeRowInto
        { (match List.find? isBothish grp with
           | some rr => rr
           | none => grp.headI) with
          integratedKey := k, status := ExistsStatus.bothMerged }) c =
        optCellStr (cellGet (grp.foldl mergeRowInto
        { (match List.find? isBothish grp with
           | some rr => rr
           | none => grp.headI) with
          integratedKey := k, status := ExistsStatus.bothMerged }) c) := rfl
    rw [h2, h1, optCellStr_foldl]
    have h3 : optCellStr (cellGet
        { (match List.find? isBothish grp with
           | some rr => rr
           | none => grp.headI) with
          integratedKey := k, status := ExistsStatus.bothMerged } c) =
        cellStr (match List.find? isBothish grp with
           | some rr => rr
           | none => grp.headI) c := rfl
    rw [h3]
    exact foldTwoSpec_flat_eq_map c grp _
      (fun r hr => hnodup r (List.mem_of_mem_filter (hgrpdef ▸ hr)))

/-- **C5 (amended) witness** — a concrete two-row group keyed `K` by a
review value. -/
theorem c5_merge_correctness_witness :
    reviewColsOf [] "TAG" = ("TAG_기준검토", "TAG_비교검토") ∧
    2 ≤ (([⟨"X", ExistsStatus.onlyRef, "P1", "S1",
            [("TAG_기준검토", "K"), ("DESC_기준", "pump"), ("NOTE_비고", "a")]⟩,
           ⟨"Y", ExistsStatus.both, "P2", "S2",
            [("TAG_기준검토", "K"), ("DESC_기준", "motor"), ("NOTE_비고", "b")]⟩] :
          List GridRow).filter
        (fun r => targetKeyOf "TAG_기준검토" "TAG_비교검토" r == "K")).length ∧
    ((applyReviewCompensation [] "TAG"
        [⟨"X", ExistsStatus.onlyRef, "P1", "S1",
          [("TAG_기준검토", "K"), ("DESC_기준", "pump"), ("NOTE_비고", "a")]⟩,
         ⟨"Y", ExistsStatus.both, "P2", "S2",
          [("TAG_기준검토", "K"), ("DESC_기준", "motor"), ("NOTE_비고", "b")]⟩]).countP
        (fun r => r.integratedKey == "K") = 1 ∧
      (∃ m ∈ applyReviewCompensation [] "TAG"
          [⟨"X", ExistsStatus.onlyRef, "P1", "S1",
            [("TAG_기준검토", "K"), ("DESC_기준", "pump"), ("NOTE_비고", "a")]⟩,
           ⟨"Y", ExistsStatus.both, "P2", "S2",
            [("TAG_기준검토", "K"), ("DESC_기준", "motor"), ("NOTE_비고", "b")]⟩],
        m.integratedKey = "K" ∧ m.status = ExistsStatus.bothMerged ∧
        (let grp := ([⟨"X", ExistsStatus.onlyRef, "P1", "S1",
            [("TAG_기준검토", "K"), ("DESC_기준", "pump"), ("NOTE_비고", "a")]⟩,
           ⟨"Y", ExistsStatus.both, "P2", "S2",
            [("TAG_기준검토", "K"), ("DESC_기준", "motor"), ("NOTE_비고", "b")]⟩] :
            List GridRow).filter
          (fun r => targetKeyOf "TAG_기준검토" "TAG_비교검토" r == "K")
         let rep := match List.find? isBothish grp with
           | some rr => rr
           | none => grp.headI
         m.standardPK = rep.standardPK ∧ m.standardSK = rep.standardSK ∧
         ∀ c : String, cellStr m c =
           (grp.map (fun r => cellStr r c)).foldl (mergeTwoSpec c)
             (cellStr rep c)))) :=
  ⟨by decide, by decide,
    c5_merge_correctness [] "TAG" "K"
      [⟨"X", ExistsStatus.onlyRef, "P1", "S1",
        [("TAG_기준검토", "K"), ("DESC_기준", "pump"), ("NOTE_비고", "a")]⟩,
       ⟨"Y", ExistsStatus.both, "P2", "S2",
        [("TAG_기준검토", "K"), ("DESC_기준", "motor"), ("NOTE_비고", "b")]⟩]
      "TAG_기준검토" "TAG_비교검토" (by decide) (by decide) (by decide) (by decide)⟩

end IoXl
